import Mathlib

/-!
Shallow embedding of the DQBF solver (`src/dqbf_solver.py`) for checking its
natural-language specification.

Conventions of the embedding:
* Propositional literals are `Int`s; a variable id is a positive integer and a
  literal's variable is its absolute value, exactly as in the Python source.
* Python dictionaries are embedded as insertion-ordered association lists
  (`List (κ × ν)`): assigning to an existing key updates it in place, a new key
  is appended at the end, and `values()` is the list of second components in
  insertion order.  This matches the ordering guarantees of Python 3.7+ dicts,
  which the source relies on when it builds assumption lists from
  `dict.values()`.
* The two CDCL SAT engines are out of scope of the repository ("treated as a
  black-box service"); they are embedded as oracles: functions from the current
  clause database and assumption list to a solve result, a model and a core.
  The spec (§7) states that every solver call is deterministic given the clause
  database and the assumptions, which is exactly what such a function is.
* Python exceptions (`ValueError`, `KeyError`, `AssertionError`) and
  `sys.exit` in the solver loop are embedded as `Except.error`.
* Logging, `print` calls, statistics, and the debug-only model-function
  enumeration (guarded by `logging...isEnabledFor(DEBUG)` in `solve`) are pure
  diagnostics and are not part of the embedding.
-/

/-- Python's `abs` on a literal, as an `Int`. -/
def iabs (l : Int) : Int := (l.natAbs : Int)

/-- Lookup in an insertion-ordered association list (Python `d[k]` / `d.get(k)`). -/
def alistLookup {α β : Type} [DecidableEq α] : List (α × β) → α → Option β
  | [], _ => none
  | (k, v) :: rest, x => if k = x then some v else alistLookup rest x

/-- Assignment `d[k] = v` on an insertion-ordered association list: update in
place when the key is present, append otherwise. -/
def alistInsert {α β : Type} [DecidableEq α] : List (α × β) → α → β → List (α × β)
  | [], x, v => [(x, v)]
  | (k, w) :: rest, x, v =>
    if k = x then (x, v) :: rest else (k, w) :: alistInsert rest x v

/-- Python `d.values()`, in insertion order. -/
def alistValues {α β : Type} (l : List (α × β)) : List β := l.map Prod.snd

/-- Python set equality of two lists of literals (`set(a) == set(b)`). -/
def listSetEq (a b : List Int) : Bool :=
  a.all (fun x => b.contains x) && b.all (fun x => a.contains x)

/-- Comparison of literals by the key `abs(lit)`, the key Python's
`sorted(..., key=abs)` uses. -/
def absLe (x y : Int) : Prop := x.natAbs ≤ y.natAbs

instance : DecidableRel absLe := fun x y => Nat.decLe x.natAbs y.natAbs

instance : IsTotal Int absLe := ⟨fun a b => Nat.le_total a.natAbs b.natAbs⟩

instance : IsTrans Int absLe := ⟨fun _ _ _ h h' => Nat.le_trans h h'⟩

/-- Python `sorted(literals, key=abs)`: a stable sort by the variable id.
`List.insertionSort` inserts each element before the first later element with a
not-smaller key, which is the same stable order Python produces. -/
def sortByAbs (l : List Int) : List Int := List.insertionSort absLe l

/-- The state of a `DQBFSolver` object.  Fields follow the attributes set up in
`DQBFSolver.__init__`; the two `pysat` solver objects are represented by their
clause databases (`cx_clauses` is bootstrapped with the matrix,
`exp_clauses` starts empty), since clauses are the only state the source ever
hands them besides per-call assumptions.

The `counter` field stands for the shared `Counter` object.  Modelled from the
spec: the `Counter` class lives in `counter.py`, which is not part of the
sources; per spec §4.1 its single operation returns `watermark + 1` and
increments, so `increase()` from watermark `c` yields id `c + 1` and the new
watermark is `c + 1`. -/
structure SolverState where
  name_to_id : List (String × Int)
  id_to_name : List (Int × String)
  dependencies : List (String × List String)
  matrix : List (List Int)
  universal_vars : List String
  output_gate_id : Int
  counter : Int
  existential_vars : List String
  universal_var_ids : List Int
  existential_var_ids : List Int
  dependencies_by_id : List (Int × List Int)
  dependencies_by_id_list : List (Int × List Int)
  value_vars : List (Int × Int)
  no_rule_fired_vars : List (Int × Int)
  rule_fire_vars : List (Int × Int)
  all_rule_fire_vars : List (Int × Int × String)
  all_no_rule_fired_vars : List (Int × Int × Int)
  all_value_vars : List (Int × Int × Int)
  permanent_assumptions : List Int
  expansion_vars : List ((Int × List Int) × Int)
  expansion_vars_set : List Int
  expansion_variable_assignment : List Int
  cx_clauses : List (List Int)
  exp_clauses : List (List Int)
  last_counterexample_existentials : Option (List Int)
  last_counterexample_universals : Option (List Int)
deriving Inhabited

/-- Black-box oracle for the counterexample SAT service: `solve`, `get_model`
and `get_core` as deterministic functions of the clause database and the
assumption list (spec §7: "every solver call is deterministic given the current
clause database and assumptions"). -/
structure SatOracle where
  solve : List (List Int) → List Int → Bool
  model : List (List Int) → List Int → List Int
  core : List (List Int) → List Int → Option (List Int)

/-- Black-box oracle for the expansion SAT service, which is only ever solved
without assumptions. -/
structure ExpOracle where
  solve : List (List Int) → Bool
  model : List (List Int) → List Int

/-- `DQBFSolver._format_literals`: sort by variable id and render each literal
with its name (or `id<n>`), negated ones with a `~` prefix. -/
def formatLiterals (i2n : List (Int × String)) (literals : List Int) : String :=
  "[" ++ String.intercalate ", "
    ((sortByAbs literals).map (fun lit =>
      let var_name := (alistLookup i2n (iabs lit)).getD ("id" ++ toString (iabs lit))
      if lit > 0 then var_name else "~" ++ var_name)) ++ "]"

/-- `DQBFSolver.init_model`: initialize the ordered-decision-list
infrastructure for one existential variable. -/
def init_model (st : SolverState) (existential_var_id : Int) :
    Except String SolverState :=
  if st.existential_var_ids.contains existential_var_id = false then
    .error "is not an existential variable"
  else if (alistLookup st.value_vars existential_var_id).isSome then
    .ok st
  else
    let exist_name := (alistLookup st.id_to_name existential_var_id).getD
      ("var" ++ toString existential_var_id)
    let value_var_1 := st.counter + 1
    let no_rule_fired_0 := st.counter + 2
    let fires_var_1 := st.counter + 3
    .ok { st with
      counter := st.counter + 3
      value_vars := alistInsert st.value_vars existential_var_id value_var_1
      no_rule_fired_vars :=
        alistInsert st.no_rule_fired_vars existential_var_id no_rule_fired_0
      rule_fire_vars :=
        alistInsert st.rule_fire_vars existential_var_id fires_var_1
      id_to_name :=
        alistInsert
          (alistInsert
            (alistInsert st.id_to_name value_var_1 (exist_name ++ "_value_1"))
            no_rule_fired_0 (exist_name ++ "_nofired_0"))
          fires_var_1 (exist_name ++ "_fire_1")
      all_value_vars := st.all_value_vars ++ [(existential_var_id, value_var_1, 1)]
      all_no_rule_fired_vars :=
        st.all_no_rule_fired_vars ++ [(existential_var_id, no_rule_fired_0, 0)]
      all_rule_fire_vars :=
        st.all_rule_fire_vars ++ [(existential_var_id, fires_var_1, "default")]
      cx_clauses := st.cx_clauses ++
        [[no_rule_fired_0],
         [-no_rule_fired_0, -fires_var_1, -existential_var_id, value_var_1],
         [-no_rule_fired_0, -fires_var_1, existential_var_id, -value_var_1]] }

/-- `DQBFSolver.set_default_value`: keep the current value variable when
`value` is `True`, negate it when `value` is `False`. -/
def set_default_value (st : SolverState) (existential_var_id : Int)
    (value : Bool) : Except String SolverState :=
  match alistLookup st.value_vars existential_var_id with
  | none => .error "has not been initialized. Call init_model first."
  | some current_value_var =>
    .ok { st with
      value_vars := alistInsert st.value_vars existential_var_id
        (if value then current_value_var else -current_value_var) }

/-- The `int(name.split("_fire_")[-1]) + 1` computation of `add_rule`, with the
`except` fallback to `2` when the last segment is not an integer. -/
def parseRuleNum (name : String) : Int :=
  match ((name.splitOn "_fire_").getLastD "").toInt? with
  | some n => n + 1
  | none => 2

/-- The in-place update of `all_rule_fire_vars` in `add_rule`: replace the
premise of the first entry matching the existential id and fire variable id,
leave the rest unchanged. -/
def updateFirstFire : List (Int × Int × String) → Int → Int → String →
    List (Int × Int × String)
  | [], _, _, _ => []
  | (eid, fid, pname) :: rest, e, f, newpname =>
    if eid = e ∧ fid = f then (eid, fid, newpname) :: rest
    else (eid, fid, pname) :: updateFirstFire rest e f newpname

/-- `DQBFSolver.add_rule`: append a rule "if `premise` holds and no previous
rule fired, set the value to `conclusion`" to an existential's decision list,
specializing the current trailing default slot and allocating a fresh one. -/
def add_rule (st : SolverState) (existential_var_id : Int) (premise : List Int)
    (conclusion : Bool) (value_var : Option Int) : Except String SolverState :=
  match alistLookup st.value_vars existential_var_id with
  | none => .error "has not been initialized. Call init_model first."
  | some value_entry =>
    match alistLookup st.no_rule_fired_vars existential_var_id,
          alistLookup st.rule_fire_vars existential_var_id with
    | some previous_no_rule_fired, some this_rule_fired =>
      let this_value_var := iabs value_entry
      let exist_name := (alistLookup st.id_to_name existential_var_id).getD
        ("var" ++ toString existential_var_id)
      let current_fire_name :=
        (alistLookup st.id_to_name (iabs this_rule_fired)).getD ""
      let rule_num := parseRuleNum current_fire_name
      let next_rule_fired := st.counter + 1
      let this_no_rule_fired := st.counter + 2
      let next_value_var := st.counter + 3
      let premise_name :=
        if premise.isEmpty then "true" else formatLiterals st.id_to_name premise
      let rule_index : Int :=
        ((st.all_rule_fire_vars.filter
          (fun t => t.1 = existential_var_id)).length : Int)
      let new_clauses :=
        premise.map (fun lit => [-this_rule_fired, lit]) ++
        [premise.map (fun lit => -lit) ++ [this_rule_fired]] ++
        [[-this_no_rule_fired, previous_no_rule_fired],
         [-this_no_rule_fired, -this_rule_fired],
         [this_no_rule_fired, -previous_no_rule_fired, this_rule_fired],
         [-next_rule_fired, -this_no_rule_fired, -existential_var_id,
          next_value_var],
         [-next_rule_fired, -this_no_rule_fired, existential_var_id,
          -next_value_var]] ++
        (match value_var with
         | none => []
         | some vv => [[-this_value_var, vv], [this_value_var, -vv]])
      .ok { st with
        counter := st.counter + 3
        rule_fire_vars :=
          alistInsert st.rule_fire_vars existential_var_id next_rule_fired
        no_rule_fired_vars :=
          alistInsert st.no_rule_fired_vars existential_var_id this_no_rule_fired
        value_vars :=
          alistInsert st.value_vars existential_var_id next_value_var
        id_to_name :=
          alistInsert
            (alistInsert
              (alistInsert
                (alistInsert st.id_to_name (iabs this_rule_fired)
                  (exist_name ++ "_fire_" ++ toString (rule_num - 1) ++
                    "_premise_" ++ premise_name))
                next_rule_fired (exist_name ++ "_fire_" ++ toString rule_num))
              this_no_rule_fired
              (exist_name ++ "_nofired_" ++ toString (rule_num - 1)))
            next_value_var (exist_name ++ "_value_" ++ toString rule_num)
        all_rule_fire_vars :=
          updateFirstFire st.all_rule_fire_vars existential_var_id
            this_rule_fired premise_name ++
            [(existential_var_id, next_rule_fired, "default")]
        all_no_rule_fired_vars :=
          st.all_no_rule_fired_vars ++
            [(existential_var_id, this_no_rule_fired, rule_index)]
        all_value_vars :=
          st.all_value_vars ++ [(existential_var_id, next_value_var, rule_num)]
        cx_clauses := st.cx_clauses ++ new_clauses
        permanent_assumptions :=
          st.permanent_assumptions ++
            (match value_var with
             | none => [if conclusion then this_value_var else -this_value_var]
             | some _ => []) }
    | _, _ => .error "KeyError"

/-- The `f"{abs(lit)}={...}"` rendering `get_expansion_variable` uses to name a
new expansion variable. -/
def assignmentStr (assignment_tuple : List Int) : String :=
  String.intercalate "_"
    (assignment_tuple.map (fun lit =>
      toString (iabs lit) ++ "=" ++ (if lit > 0 then "T" else "F")))

/-- `DQBFSolver.get_expansion_variable`: canonical interning of
`(existential, assignment)` pairs.  The assignment is validated against the
dependency set, canonicalized by sorting on the variable id, and either found
in the registry or bound to a fresh id together with a new decision-list rule
whose premise is the (uncanonicalized) assignment. -/
def get_expansion_variable (st : SolverState) (existential_var_id : Int)
    (assignment : List Int) : Except String (Int × SolverState) :=
  if st.existential_var_ids.contains existential_var_id = false then
    .error "is not an existential variable"
  else
    let dep_set := (alistLookup st.dependencies_by_id existential_var_id).getD []
    if assignment.all (fun lit => dep_set.contains (iabs lit)) = false then
      .error "Assignment contains variables not in dependency set"
    else
      let assignment_tuple := sortByAbs assignment
      let key := (existential_var_id, assignment_tuple)
      match alistLookup st.expansion_vars key with
      | some v => .ok (v, st)
      | none =>
        let expansion_var_id := st.counter + 1
        let st' := { st with
          counter := expansion_var_id
          id_to_name :=
            match alistLookup st.id_to_name existential_var_id with
            | some exist_name =>
              alistInsert st.id_to_name expansion_var_id
                ("exp_" ++ exist_name ++ "_" ++ assignmentStr assignment_tuple)
            | none => st.id_to_name
          expansion_vars := alistInsert st.expansion_vars key expansion_var_id }
        match add_rule st' existential_var_id assignment true
            (some expansion_var_id) with
        | .error msg => .error msg
        | .ok st2 =>
          .ok (expansion_var_id,
            { st2 with
              expansion_vars_set := st2.expansion_vars_set ++ [expansion_var_id] })

/-- `DQBFSolver.get_counterexample`: search with the negated output gate, the
permanent assumptions, the current fire and value variables and the expansion
assignment; on SAT, verify the projected model against the unnegated output
gate (which must be UNSAT) and return the core filtered to existential ids
together with the universal projection of the model. -/
def get_counterexample (st : SolverState) (o : SatOracle) :
    Except String (Bool × Option (List Int × List Int)) :=
  let assumptions_step1 :=
    [-st.output_gate_id] ++ st.permanent_assumptions ++
    alistValues st.rule_fire_vars ++ alistValues st.value_vars ++
    st.expansion_variable_assignment
  if o.solve st.cx_clauses assumptions_step1 = false then
    .ok (false, none)
  else
    let model := o.model st.cx_clauses assumptions_step1
    let counterexample_universals :=
      model.filter (fun lit => st.universal_var_ids.contains (iabs lit))
    let counterexample_existentials :=
      model.filter (fun lit => st.existential_var_ids.contains (iabs lit))
    let assumptions :=
      counterexample_universals ++ counterexample_existentials ++
      [st.output_gate_id]
    if o.solve st.cx_clauses assumptions = true then
      .error "Second solve call should be UNSAT but returned SAT"
    else
      let core := (o.core st.cx_clauses assumptions).getD []
      let existential_core :=
        core.filter (fun lit => st.existential_var_ids.contains (iabs lit))
      .ok (true, some (existential_core, counterexample_universals))

/-- The loop body of `DQBFSolver.analyze_counterexample`, threading the state
and the blocking clause accumulated so far through the existential literals. -/
def analyzeLoop (universal_literals : List Int) :
    List Int → SolverState → List Int → Except String (SolverState × List Int)
  | [], st, expansion_clause => .ok (st, expansion_clause)
  | exist_lit :: rest, st, expansion_clause =>
    let exist_id := iabs exist_lit
    let assignment := universal_literals.filter (fun lit =>
      ((alistLookup st.dependencies_by_id exist_id).getD []).contains (iabs lit))
    match get_expansion_variable st exist_id assignment with
    | .error msg => .error msg
    | .ok (expansion_var, st') =>
      if exist_lit > 0 then
        match set_default_value st' exist_id false with
        | .error msg => .error msg
        | .ok st'' =>
          analyzeLoop universal_literals rest st''
            (expansion_clause ++ [-expansion_var])
      else
        match set_default_value st' exist_id true with
        | .error msg => .error msg
        | .ok st'' =>
          analyzeLoop universal_literals rest st''
            (expansion_clause ++ [expansion_var])

/-- `DQBFSolver.analyze_counterexample`: refine the model from a
counterexample, then add the accumulated blocking clause to the expansion
solver. -/
def analyze_counterexample (st : SolverState) (existential_literals : List Int)
    (universal_literals : List Int) : Except String SolverState :=
  match analyzeLoop universal_literals existential_literals st [] with
  | .error msg => .error msg
  | .ok (st', expansion_clause) =>
    .ok { st' with exp_clauses := st'.exp_clauses ++ [expansion_clause] }

/-- The stall test of `DQBFSolver.solve`: both fingerprints are set and equal
(as Python sets) to the current counterexample. -/
def stallDetected (st : SolverState) (existential_core : List Int)
    (universal_assignment : List Int) : Bool :=
  match st.last_counterexample_existentials,
        st.last_counterexample_universals with
  | some last_e, some last_u =>
    listSetEq existential_core last_e && listSetEq universal_assignment last_u
  | _, _ => false

/-- Result of one iteration of the `while True` loop in `DQBFSolver.solve`.
`next` carries the state for the following iteration together with the
counterexample this iteration consumed; `unsat` also records the final
counterexample. -/
inductive StepOutcome where
  | sat : StepOutcome
  | unsat : List Int × List Int → StepOutcome
  | next : SolverState → List Int × List Int → StepOutcome

/-- One iteration of the `while True` loop of `DQBFSolver.solve`: ask for a
counterexample (none means SAT), run the stall check (`sys.exit` on a repeat of
the previous counterexample), store the fingerprint, refine, and query the
expansion solver (UNSAT means the DQBF is UNSAT; otherwise the projection of
its model to the expansion variables becomes the next expansion assignment). -/
def solveStep (st : SolverState) (o : SatOracle) (eo : ExpOracle) :
    Except String StepOutcome :=
  match get_counterexample st o with
  | .error msg => .error msg
  | .ok (has_counterexample, counterexample) =>
    if has_counterexample = false then .ok .sat
    else
      match counterexample with
      | none => .error "counterexample missing"
      | some (existential_core, universal_assignment) =>
        if stallDetected st existential_core universal_assignment then
          .error "Same counterexample seen twice in a row"
        else
          let st1 := { st with
            last_counterexample_existentials := some existential_core
            last_counterexample_universals := some universal_assignment }
          match analyze_counterexample st1 existential_core
              universal_assignment with
          | .error msg => .error msg
          | .ok st2 =>
            if eo.solve st2.exp_clauses = false then
              .ok (.unsat (existential_core, universal_assignment))
            else
              .ok (.next
                { st2 with
                  expansion_variable_assignment :=
                    (eo.model st2.exp_clauses).filter (fun lit =>
                      st2.expansion_vars_set.contains (iabs lit)) }
                (existential_core, universal_assignment))

/-- How a fueled run of the driver loop ended. -/
inductive LoopOutcome where
  | sat : LoopOutcome
  | unsat : LoopOutcome
  | outOfFuel : LoopOutcome
deriving DecidableEq

/-- `DQBFSolver.solve`, run for at most `fuel` iterations, returning the
sequence of counterexamples consumed together with the outcome. -/
def solveLoop (o : SatOracle) (eo : ExpOracle) :
    Nat → SolverState →
    Except String (List (List Int × List Int) × LoopOutcome)
  | 0, _ => .ok ([], .outOfFuel)
  | Nat.succ fuel, st =>
    match solveStep st o eo with
    | .error msg => .error msg
    | .ok .sat => .ok ([], .sat)
    | .ok (.unsat cx) => .ok ([cx], .unsat)
    | .ok (.next st' cx) =>
      match solveLoop o eo fuel st' with
      | .error msg => .error msg
      | .ok (trace, outcome) => .ok (cx :: trace, outcome)

/-- The union-find structure defined inside
`DQBFSolver.detect_equivalent_existentials`: a parent map and a rank map. -/
structure UnionFind where
  parent : List (Int × Int)
  rank : List (Int × Int)

/-- `UnionFind.__init__`: every element is its own parent, all ranks zero. -/
def ufInit (elements : List Int) : UnionFind :=
  { parent := elements.map (fun e => (e, e))
    rank := elements.map (fun e => (e, 0)) }

/-- `UnionFind.find` with path compression.  The recursion is fueled; parent
chains of a union-by-rank forest are acyclic, so fuel equal to the number of
entries in the parent map can never run out on states the detector builds. -/
def ufFindAux : Nat → UnionFind → Int → Int × UnionFind
  | 0, uf, x => (x, uf)
  | Nat.succ fuel, uf, x =>
    let p := (alistLookup uf.parent x).getD x
    if p = x then (x, uf)
    else
      let (root, uf') := ufFindAux fuel uf p
      (root, { uf' with parent := alistInsert uf'.parent x root })

/-- `UnionFind.find`. -/
def ufFind (uf : UnionFind) (x : Int) : Int × UnionFind :=
  ufFindAux uf.parent.length uf x

/-- `UnionFind.union` (by rank), including the path compression its two `find`
calls perform. -/
def ufUnion (uf : UnionFind) (x y : Int) : UnionFind :=
  let (root_x, uf1) := ufFind uf x
  let (root_y, uf2) := ufFind uf1 y
  if root_x = root_y then uf2
  else
    let rank_x := (alistLookup uf2.rank root_x).getD 0
    let rank_y := (alistLookup uf2.rank root_y).getD 0
    if rank_x < rank_y then
      { uf2 with parent := alistInsert uf2.parent root_x root_y }
    else if rank_y < rank_x then
      { uf2 with parent := alistInsert uf2.parent root_y root_x }
    else
      { parent := alistInsert uf2.parent root_y root_x
        rank := alistInsert uf2.rank root_x (rank_x + 1) }

/-- `UnionFind.same_set`, threading the compression of its two `find` calls. -/
def ufSameSet (uf : UnionFind) (x y : Int) : Bool × UnionFind :=
  let (root_x, uf1) := ufFind uf x
  let (root_y, uf2) := ufFind uf1 y
  (root_x = root_y, uf2)

/-- `UnionFind.get_classes`: fold over the parent-map entries, appending each
element to its root's class. -/
def ufGetClassesAux : List Int → UnionFind → List (Int × List Int) →
    List (Int × List Int) × UnionFind
  | [], uf, classes => (classes, uf)
  | e :: rest, uf, classes =>
    let (root, uf') := ufFind uf e
    let classes' :=
      match alistLookup classes root with
      | some members => alistInsert classes root (members ++ [e])
      | none => classes ++ [(root, [e])]
    ufGetClassesAux rest uf' classes'

/-- `UnionFind.get_classes`. -/
def ufGetClasses (uf : UnionFind) : List (Int × List Int) × UnionFind :=
  ufGetClassesAux (uf.parent.map Prod.fst) uf []

/-- Black-box oracle for the dedicated detection SAT service of
`detect_equivalent_existentials`. -/
structure DetOracle where
  solve : List (List Int) → List Int → Bool

/-- The `by_dep_count` grouping of `detect_equivalent_existentials`: bucket the
existential ids by the length of their dependency list, in first-seen key
order, each bucket in iteration order. -/
def buildBuckets (st : SolverState) : List (Nat × List Int) :=
  st.existential_var_ids.foldl
    (fun buckets exist_id =>
      let dep_count :=
        ((alistLookup st.dependencies_by_id_list exist_id).getD []).length
      match alistLookup buckets dep_count with
      | some group => alistInsert buckets dep_count (group ++ [exist_id])
      | none => buckets ++ [(dep_count, [exist_id])])
    []

/-- Bucket keys are unique, so Python's `sorted(by_dep_count.items())` is a
sort on the key. -/
def bucketKeyLe (x y : Nat × List Int) : Prop := x.1 ≤ y.1

instance : DecidableRel bucketKeyLe := fun x y => Nat.decLe x.1 y.1

instance : IsTotal (Nat × List Int) bucketKeyLe := ⟨fun a b => Nat.le_total a.1 b.1⟩

instance : IsTrans (Nat × List Int) bucketKeyLe := ⟨fun _ _ _ h h' => Nat.le_trans h h'⟩

/-- The ordered pairs `(group[i], group[j])`, `i < j`, visited by the two
nested loops of `detect_equivalent_existentials` within one bucket. -/
def pairsOf : List Int → List (Int × Int)
  | [] => []
  | x :: xs => xs.map (fun y => (x, y)) ++ pairsOf xs

/-- The full sequence of candidate pairs `detect_equivalent_existentials`
iterates over: buckets sorted by dependency count, pairs within each bucket. -/
def bucketPairs (st : SolverState) : List (Int × Int) :=
  (List.insertionSort bucketKeyLe (buildBuckets st)).flatMap
    (fun bucket => pairsOf bucket.2)

/-- The per-pair body of `detect_equivalent_existentials`, acting on the loop
state (fresh-id watermark, union-find, detection-solver clause database):
skip pairs already in one class, otherwise allocate an activation literal, add
the guarded dependency-equivalence and difference clauses, solve under the
activation literal and the output gate, and union on UNSAT. -/
def checkPair (st : SolverState) (o : DetOracle)
    (acc : Int × UnionFind × List (List Int)) (var1_id var2_id : Int) :
    Int × UnionFind × List (List Int) :=
  let ctr := acc.1
  let uf := acc.2.1
  let clauses := acc.2.2
  let same := ufSameSet uf var1_id var2_id
  if same.1 then (ctr, same.2, clauses)
  else
    let deps1 := (alistLookup st.dependencies_by_id_list var1_id).getD []
    let deps2 := (alistLookup st.dependencies_by_id_list var2_id).getD []
    let assumption_variable := ctr + 1
    let clauses' := clauses ++
      (deps1.zip deps2).foldl
        (fun cs dep_pair =>
          cs ++ [[-assumption_variable, dep_pair.1, -dep_pair.2],
                 [-assumption_variable, -dep_pair.1, dep_pair.2]])
        [] ++
      [[-assumption_variable, var1_id, var2_id],
       [-assumption_variable, -var1_id, -var2_id]]
    let result := o.solve clauses' [assumption_variable, st.output_gate_id]
    if result then (assumption_variable, same.2, clauses')
    else (assumption_variable, ufUnion same.2 var1_id var2_id, clauses')

/-- `DQBFSolver.detect_equivalent_existentials`: returns the equivalence
classes and the solver state afterwards.  The dedicated detection solver is
bootstrapped with the matrix; of the solver object's own state only the shared
fresh-id counter is touched. -/
def detect_equivalent_existentials (st : SolverState) (o : DetOracle) :
    List (Int × List Int) × SolverState :=
  let uf0 := ufInit st.existential_var_ids
  let final := (bucketPairs st).foldl
    (fun acc p => checkPair st o acc p.1 p.2) (st.counter, uf0, st.matrix)
  let classes := (ufGetClasses final.2.1).1
  (classes, { st with counter := final.1 })

/-- Helper for `__init__`: Python `d[k]` lookup that raises `KeyError` when the
key is missing. -/
def lookupE {α β : Type} [DecidableEq α] (l : List (α × β)) (k : α) :
    Except String β :=
  match alistLookup l k with
  | some v => .ok v
  | none => .error "KeyError"

/-- The dependency id-translation loop of `DQBFSolver.__init__`: look up the
existential id and the dependency ids for each entry of the dependency map. -/
def depPairsOf (name_to_id : List (String × Int))
    (dependencies : List (String × List String)) :
    Except String (List (Int × List Int)) :=
  dependencies.mapM (fun p => do
    let exist_id ← lookupE name_to_id p.1
    let dep_ids ← p.2.mapM (lookupE name_to_id)
    pure (exist_id, dep_ids))

/-- `DQBFSolver.__init__`: build the initial solver state from the parser
outputs and run `init_model` on every existential variable.  When no counter
is supplied, the watermark starts at the maximum id over the name table and
the matrix.  `set(dependencies.keys())` is embedded as the key list in
insertion order (deduplicated); the source only iterates it to derive the
existential id list, and no claim depends on the set's iteration order. -/
def initialCounter (name_to_id : List (String × Int))
    (matrix : List (List Int)) (counter : Option Int) : Int :=
  match counter with
  | some c => c
  | none =>
    let max_id := (name_to_id.map Prod.snd).foldl max 0
    matrix.foldl (fun acc clause =>
      clause.foldl (fun m lit => max m (iabs lit)) acc) max_id

def mkSolver (name_to_id : List (String × Int)) (id_to_name : List (Int × String))
    (dependencies : List (String × List String)) (matrix : List (List Int))
    (universal_vars : List String) (output_gate_id : Int)
    (counter : Option Int) : Except String SolverState := do
  let counter0 : Int := initialCounter name_to_id matrix counter
  let existential_vars := (dependencies.map Prod.fst).eraseDups
  let universal_var_ids ← universal_vars.mapM (lookupE name_to_id)
  let existential_var_ids ← existential_vars.mapM (lookupE name_to_id)
  let depPairs ← depPairsOf name_to_id dependencies
  let st0 : SolverState := {
    name_to_id := name_to_id
    id_to_name := id_to_name
    dependencies := dependencies
    matrix := matrix
    universal_vars := universal_vars
    output_gate_id := output_gate_id
    counter := counter0
    existential_vars := existential_vars
    universal_var_ids := universal_var_ids
    existential_var_ids := existential_var_ids
    dependencies_by_id :=
      depPairs.foldl (fun m p => alistInsert m p.1 p.2) []
    dependencies_by_id_list :=
      depPairs.foldl (fun m p => alistInsert m p.1 p.2) []
    value_vars := []
    no_rule_fired_vars := []
    rule_fire_vars := []
    all_rule_fire_vars := []
    all_no_rule_fired_vars := []
    all_value_vars := []
    permanent_assumptions := []
    expansion_vars := []
    expansion_vars_set := []
    expansion_variable_assignment := []
    cx_clauses := matrix
    exp_clauses := []
    last_counterexample_existentials := none
    last_counterexample_universals := none }
  existential_var_ids.foldlM init_model st0

/-!  Concrete instances used to exercise the theorems below: a small DQBF with
one universal `u` (id 1), one existential `e` (id 2) depending on `u`, and
output gate `g` (id 3), plus deterministic SAT-service oracles. -/

def demoN2I : List (String × Int) := [("u", 1), ("e", 2), ("g", 3)]

def demoI2N : List (Int × String) := [(1, "u"), (2, "e"), (3, "g")]

def demoDeps : List (String × List String) := [("e", ["u"])]

/-- The solver state `DQBFSolver.__init__` builds for the demo formula (empty
matrix, so every oracle answer below is unconstrained by clauses). -/
def demoC7 : SolverState :=
  match mkSolver demoN2I demoI2N demoDeps [] ["u"] 3 none with
  | .ok st => st
  | .error _ => default

/-- A deterministic counterexample-service oracle that drives `demoC7` through
three iterations whose counterexamples are A, B, A (the first and third agree),
then reports UNSAT on the fourth search. -/
def o7 : SatOracle :=
  { solve := fun _ a =>
      if a = [-3, 6, 4] then true
      else if a = [1, 2, 3] then false
      else if a = [-3, 8, -10, -7] then true
      else if a = [-1, -2, 3] then false
      else if a = [-3, 12, 14, -7, 11] then true
      else false
    model := fun _ a =>
      if a = [-3, 6, 4] then [1, 2, -3, 4, 5, 6]
      else if a = [-3, 8, -10, -7] then [-1, -2, -3, -4, 5, -6, -7, 8, 9, -10]
      else if a = [-3, 12, 14, -7, 11] then
        [1, 2, -3, -4, 5, 6, -7, -8, -9, -10, 11, 12, -13, 14]
      else []
    core := fun _ a =>
      if a = [1, 2, 3] then some [2]
      else if a = [-1, -2, 3] then some [-2]
      else none }

/-- Expansion-service oracle for the same run: always satisfiable, with a fixed
total model over the expansion variables 7 and 11. -/
def eo7 : ExpOracle := { solve := fun _ => true, model := fun _ => [-7, 11] }

/-- An expansion-service oracle that reports UNSAT immediately. -/
def eoUnsat : ExpOracle := { solve := fun _ => false, model := fun _ => [] }

/-- A counterexample-service oracle whose first search is UNSAT. -/
def oNoCx : SatOracle :=
  { solve := fun _ _ => false, model := fun _ _ => [], core := fun _ _ => none }

/-- A counterexample-service oracle for a single verified counterexample whose
core contains a non-existential literal (5), exercising the core filter. -/
def oOneCx : SatOracle :=
  { solve := fun _ a => if a = [-3, 6, 4] then true else false
    model := fun _ _ => [1, 2]
    core := fun _ _ => some [5, 2] }

/-- The state after the first driver iteration of the `o7`/`eo7` run. -/
def demoNext : SolverState :=
  match solveStep demoC7 o7 eo7 with
  | .ok (.next s _) => s
  | _ => default

/-- The state `analyze_counterexample` produces from the first counterexample
of the `o7` run. -/
def demoAnalyzed : SolverState :=
  match analyze_counterexample demoC7 [2] [1] with
  | .ok s => s
  | .error _ => default

/-- The demo state with the fingerprint of counterexample `([2], [1])`
installed, as the driver stores it before refining. -/
def demoStall1 : SolverState :=
  { demoC7 with last_counterexample_existentials := some [2],
                last_counterexample_universals := some [1] }

/-- The state `analyze_counterexample` produces from `([2], [1])` after the
fingerprint has been stored. -/
def demoAnalyzed2 : SolverState :=
  match analyze_counterexample demoStall1 [2] [1] with
  | .ok s => s
  | .error _ => default

/-!  A second demo formula whose existential has two dependencies, to exercise
canonical interning with a nontrivial permutation: `u1` (1), `u2` (2), `e` (3)
with `D(e) = [u1, u2]`, output gate `g` (4). -/

def demo2N2I : List (String × Int) :=
  [("u1", 1), ("u2", 2), ("e", 3), ("g", 4)]

def demo2I2N : List (Int × String) :=
  [(1, "u1"), (2, "u2"), (3, "e"), (4, "g")]

def demo2Deps : List (String × List String) := [("e", ["u1", "u2"])]

def demoC5 : SolverState :=
  match mkSolver demo2N2I demo2I2N demo2Deps [] ["u1", "u2"] 4 none with
  | .ok st => st
  | .error _ => default

/-- The state after interning `(e, [u1, ¬u2])` in the two-dependency demo. -/
def demoC5After : SolverState :=
  match get_expansion_variable demoC5 3 [1, -2] with
  | .ok p => p.2
  | .error _ => default

/-!  A demo formula with two existentials of equal dependency count, for the
equivalence detector: `u` (1), `e1` (2), `e2` (3) both depending on `u`,
output gate `g` (4). -/

def demoEqN2I : List (String × Int) :=
  [("u", 1), ("e1", 2), ("e2", 3), ("g", 4)]

def demoEqI2N : List (Int × String) :=
  [(1, "u"), (2, "e1"), (3, "e2"), (4, "g")]

def demoEqDeps : List (String × List String) := [("e1", ["u"]), ("e2", ["u"])]

def demoEq : SolverState :=
  match mkSolver demoEqN2I demoEqI2N demoEqDeps [] ["u"] 4 none with
  | .ok st => st
  | .error _ => default

/-- A detection-service oracle that always reports SAT (a difference witness
exists, so no pair is merged). -/
def oDetSat : DetOracle := { solve := fun _ _ => true }

/-- The number of dependencies of an existential, the detector's bucket key. -/
def depCountOf (st : SolverState) (v : Int) : Nat :=
  ((alistLookup st.dependencies_by_id_list v).getD []).length

/-- The clauses the claim describes for one candidate pair under activation
literal `a`: positionwise dependency equivalence, guarded, plus the guarded
difference clauses. -/
def guardedClauses (a : Int) (deps1 deps2 : List Int) (v1 v2 : Int) :
    List (List Int) :=
  (deps1.zip deps2).flatMap
    (fun q => [[-a, q.1, -q.2], [-a, -q.1, q.2]]) ++
  [[-a, v1, v2], [-a, -v1, -v2]]

/-- Strict comparison on the variable id, used only to show canonical forms
are unique. -/
def absLt (x y : Int) : Prop := x.natAbs < y.natAbs

instance : IsAntisymm Int absLt :=
  ⟨fun _ _ h h' => absurd (Nat.lt_trans h h') (Nat.lt_irrefl _)⟩

/-!  Association-list lemmas. -/

theorem alistLookup_insert {α β : Type} [DecidableEq α] (l : List (α × β))
    (k k' : α) (v : β) :
    alistLookup (alistInsert l k v) k' =
      if k = k' then some v else alistLookup l k' := by
  induction l with
  | nil => simp [alistLookup, alistInsert]
  | cons hd tl ih =>
    obtain ⟨a, b⟩ := hd
    by_cases hak : a = k
    · subst hak
      by_cases hak' : a = k' <;> simp [alistLookup, alistInsert, hak']
    · by_cases hak' : a = k'
      · subst hak'
        have : ¬ k = a := fun h => hak h.symm
        simp [alistLookup, alistInsert, hak, this]
      · simp [alistLookup, alistInsert, hak, hak', ih]

theorem alistLookup_insert_self {α β : Type} [DecidableEq α] (l : List (α × β))
    (k : α) (v : β) : alistLookup (alistInsert l k v) k = some v := by
  simp [alistLookup_insert]

theorem alistLookup_insert_preserve {α β : Type} [DecidableEq α]
    {l : List (α × β)} {k k' : α} {v v' : β}
    (hfresh : alistLookup l k = none) (h : alistLookup l k' = some v') :
    alistLookup (alistInsert l k v) k' = some v' := by
  rw [alistLookup_insert]
  rcases eq_or_ne k k' with rfl | hne
  · rw [h] at hfresh; cases hfresh
  · simp [hne, h]

theorem alistLookup_mem {α β : Type} [DecidableEq α] {l : List (α × β)}
    {k : α} {v : β} (h : alistLookup l k = some v) : (k, v) ∈ l := by
  induction l with
  | nil => cases h
  | cons hd tl ih =>
    obtain ⟨a, b⟩ := hd
    by_cases hak : a = k
    · subst hak
      simp only [alistLookup, if_pos rfl] at h
      cases h
      exact List.mem_cons_self _ _
    · simp only [alistLookup, if_neg hak] at h
      exact List.mem_cons_of_mem _ (ih h)

theorem mem_alistInsert {α β : Type} [DecidableEq α] {l : List (α × β)}
    {k : α} {v : β} {p : α × β} (h : p ∈ alistInsert l k v) :
    p = (k, v) ∨ p ∈ l := by
  revert h
  induction l with
  | nil =>
    intro h
    simp only [alistInsert, List.mem_singleton] at h
    exact Or.inl h
  | cons hd tl ih =>
    intro h
    obtain ⟨a, b⟩ := hd
    simp only [alistInsert] at h
    by_cases hak : a = k
    · rw [if_pos hak] at h
      rcases List.mem_cons.mp h with h1 | h1
      · exact Or.inl h1
      · exact Or.inr (List.mem_cons_of_mem _ h1)
    · rw [if_neg hak] at h
      rcases List.mem_cons.mp h with h1 | h1
      · exact Or.inr (h1 ▸ List.mem_cons_self _ _)
      · rcases ih h1 with h2 | h2
        · exact Or.inl h2
        · exact Or.inr (List.mem_cons_of_mem _ h2)

/-!  Sorting lemmas: a permutation of an assignment with pairwise distinct
variables has the same canonical (abs-sorted) form. -/

theorem sortByAbs_perm (l : List Int) : List.Perm (sortByAbs l) l :=
  List.perm_insertionSort absLe l

theorem sorted_absLt_of_nodup {l : List Int} (hs : List.Sorted absLe l)
    (hnd : (l.map Int.natAbs).Nodup) : List.Sorted absLt l := by
  have hne : l.Pairwise (fun x y : Int => x.natAbs ≠ y.natAbs) :=
    (List.pairwise_map.mp hnd)
  exact (hs.and hne).imp (fun h => Nat.lt_of_le_of_ne h.1 h.2)

theorem sortByAbs_eq_of_perm {a a' : List Int} (hperm : List.Perm a' a)
    (hnd : (a.map Int.natAbs).Nodup) : sortByAbs a' = sortByAbs a := by
  have hp : List.Perm (sortByAbs a') (sortByAbs a) :=
    (sortByAbs_perm a').trans (hperm.trans (sortByAbs_perm a).symm)
  have hnds : ((sortByAbs a).map Int.natAbs).Nodup :=
    (((sortByAbs_perm a).map Int.natAbs).nodup_iff).mpr hnd
  have hnds' : ((sortByAbs a').map Int.natAbs).Nodup :=
    ((hp.map Int.natAbs).nodup_iff).mpr hnds
  exact List.eq_of_perm_of_sorted hp
    (sorted_absLt_of_nodup (List.sorted_insertionSort absLe a') hnds')
    (sorted_absLt_of_nodup (List.sorted_insertionSort absLe a) hnds)

theorem perm_all_eq {p : Int → Bool} {a a' : List Int} (h : List.Perm a' a) :
    a'.all p = a.all p := by
  have hiff : (a'.all p = true) ↔ (a.all p = true) := by
    simp only [List.all_eq_true]
    exact ⟨fun hx x hm => hx x (h.mem_iff.mpr hm),
           fun hx x hm => hx x (h.mem_iff.mp hm)⟩
  cases ha : a.all p
  · cases ha' : a'.all p
    · rfl
    · rw [ha] at hiff; exact absurd (hiff.mp ha') (by simp)
  · exact hiff.mpr ha

/-- The claim of `C1` is about `set_default_value`; the source computes
`current if value else -current`, so the resulting sign depends on the sign the
stored literal already had, not on `value` alone.  Starting from the freshly
initialized demo state (stored value literal `+4`), calling
`set_default(e, False)` twice leaves the literal positive (`+4`), although the
documented behaviour ("If value is False, the value variable becomes
negative") and the spec demand a negative literal; calling
`set_default(e, False)` and then `set_default(e, True)` leaves it negative
(`-4`), although both demand a positive literal.  The magnitude is unchanged
in all cases. -/
theorem set_default_value_sign_bug :
    ((set_default_value demoC7 2 false >>= fun s =>
        set_default_value s 2 false).toOption.map
        (fun s => alistLookup s.value_vars 2) = some (some 4)) ∧
    ((set_default_value demoC7 2 false >>= fun s =>
        set_default_value s 2 true).toOption.map
        (fun s => alistLookup s.value_vars 2) = some (some (-4))) ∧
    alistLookup demoC7.value_vars 2 = some 4 := by
  exact ⟨rfl, rfl, rfl⟩

/-- The claim of `C8`: an assignment containing a literal whose variable is
outside the dependency set of the existential makes `get_expansion_variable`
fail with the validation error; since the check precedes every allocation and
insertion, no state is produced at all (the embedding returns only the error,
so the registry, id set, counter, rules and clauses of `st` are untouched). -/
theorem get_expansion_variable_outside_deps (st : SolverState)
    (existential_var_id : Int) (assignment : List Int) (lit : Int)
    (he : st.existential_var_ids.contains existential_var_id = true)
    (hmem : lit ∈ assignment)
    (hbad : ((alistLookup st.dependencies_by_id existential_var_id).getD
      []).contains (iabs lit) = false) :
    get_expansion_variable st existential_var_id assignment =
      .error "Assignment contains variables not in dependency set" := by
  have hall : assignment.all (fun l =>
      ((alistLookup st.dependencies_by_id existential_var_id).getD
        []).contains (iabs l)) = false := by
    cases hc : assignment.all (fun l =>
      ((alistLookup st.dependencies_by_id existential_var_id).getD
        []).contains (iabs l))
    · rfl
    · rw [List.all_eq_true] at hc
      rw [hc lit hmem] at hbad
      cases hbad
  have hmem' : existential_var_id ∈ st.existential_var_ids := by simpa using he
  have hex : ∃ x ∈ assignment,
      iabs x ∉ (alistLookup st.dependencies_by_id existential_var_id).getD [] :=
    ⟨lit, hmem, by simpa using hbad⟩
  simp [get_expansion_variable, hmem', hex]

/-- Witness for `get_expansion_variable_outside_deps`: in the demo state the
existential `e` (id 2) depends only on `u` (id 1), so the assignment `[99]`
is rejected. -/
theorem get_expansion_variable_outside_deps_witness :
    get_expansion_variable demoC7 2 [99] =
      .error "Assignment contains variables not in dependency set" :=
  get_expansion_variable_outside_deps demoC7 2 [99] 99 (by decide)
    (by decide) (by decide)

/-- The claim of `C2`: `get_counterexample` first solves with assumptions
exactly `¬g* , permanent assumptions, current fire variables, current signed
value variables, stored expansion assignment` (in that order, fire and value
variables in insertion order over the existentials); on UNSAT it returns
`(false, none)`; otherwise, provided the verification query (model projected to
universals, then existentials, then `g*`) is UNSAT as the source asserts, it
returns `(true, (exist_core, universal_assignment))` with `universal_assignment`
the model's projection to universal ids and `exist_core` the verification
core filtered to literals whose variable is an existential id. -/
theorem get_counterexample_spec (st : SolverState) (o : SatOracle)
    (A1 : List Int)
    (hA1 : A1 = [-st.output_gate_id] ++ st.permanent_assumptions ++
      alistValues st.rule_fire_vars ++ alistValues st.value_vars ++
      st.expansion_variable_assignment) :
    (o.solve st.cx_clauses A1 = false →
      get_counterexample st o = .ok (false, none)) ∧
    (∀ ua ea A2,
      ua = (o.model st.cx_clauses A1).filter
        (fun lit => st.universal_var_ids.contains (iabs lit)) →
      ea = (o.model st.cx_clauses A1).filter
        (fun lit => st.existential_var_ids.contains (iabs lit)) →
      A2 = ua ++ ea ++ [st.output_gate_id] →
      o.solve st.cx_clauses A1 = true →
      o.solve st.cx_clauses A2 = false →
      get_counterexample st o = .ok (true, some
        (((o.core st.cx_clauses A2).getD []).filter
          (fun lit => st.existential_var_ids.contains (iabs lit)), ua))) := by
  subst hA1
  constructor
  · intro hs
    simp only [get_counterexample, hs]
    rfl
  · intro ua ea A2 hua hea hA2 hs1 hs2
    subst hua
    subst hea
    subst hA2
    simp only [get_counterexample, hs1, hs2]
    rfl

/-- Witness for `get_counterexample_spec`: the UNSAT branch under an oracle
that never finds a counterexample, and the full counterexample branch under
`oOneCx`, whose core `[5, 2]` is filtered down to the existential literal. -/
theorem get_counterexample_spec_witness :
    get_counterexample demoC7 oNoCx = .ok (false, none) ∧
    get_counterexample demoC7 oOneCx = .ok (true, some ([2], [1])) := by
  constructor
  · exact (get_counterexample_spec demoC7 oNoCx [-3, 6, 4] (by decide)).1 rfl
  · exact (get_counterexample_spec demoC7 oOneCx [-3, 6, 4] (by decide)).2
      [1] [2] [1, 2, 3] (by decide) (by decide) (by decide) (by decide)
      (by decide)

theorem get_counterexample_false_none {st : SolverState} {o : SatOracle}
    {b : Bool} {c : Option (List Int × List Int)}
    (h : get_counterexample st o = .ok (b, c)) (hb : b = false) : c = none := by
  subst hb
  dsimp only [get_counterexample] at h
  split at h
  · cases h
    rfl
  · split at h
    · cases h
    · cases h


/-!  Branch equations for one iteration of the driver loop. -/

theorem solveStep_of_error {st : SolverState} {o : SatOracle} {eo : ExpOracle}
    {msg : String} (hg : get_counterexample st o = .error msg) :
    solveStep st o eo = .error msg := by
  unfold solveStep
  rw [hg]

theorem solveStep_of_no_cx {st : SolverState} {o : SatOracle} {eo : ExpOracle}
    {c : Option (List Int × List Int)}
    (hg : get_counterexample st o = .ok (false, c)) :
    solveStep st o eo = .ok .sat := by
  unfold solveStep
  rw [hg]
  rfl

theorem solveStep_of_missing_cx {st : SolverState} {o : SatOracle}
    {eo : ExpOracle} (hg : get_counterexample st o = .ok (true, none)) :
    solveStep st o eo = .error "counterexample missing" := by
  unfold solveStep
  rw [hg]
  rfl

theorem solveStep_of_stall {st : SolverState} {o : SatOracle} {eo : ExpOracle}
    {ec ua : List Int}
    (hg : get_counterexample st o = .ok (true, some (ec, ua)))
    (hstall : stallDetected st ec ua = true) :
    solveStep st o eo = .error "Same counterexample seen twice in a row" := by
  unfold solveStep
  rw [hg]
  dsimp only
  rw [hstall]
  rfl

theorem solveStep_of_analyze_error {st : SolverState} {o : SatOracle}
    {eo : ExpOracle} {ec ua : List Int} {msg : String}
    (hg : get_counterexample st o = .ok (true, some (ec, ua)))
    (hstall : stallDetected st ec ua = false)
    (hana : analyze_counterexample
      { st with last_counterexample_existentials := some ec,
                last_counterexample_universals := some ua } ec ua =
      .error msg) :
    solveStep st o eo = .error msg := by
  unfold solveStep
  rw [hg]
  dsimp only
  rw [hstall, hana]
  rfl

theorem solveStep_of_exp_unsat {st : SolverState} {o : SatOracle}
    {eo : ExpOracle} {ec ua : List Int} {st2 : SolverState}
    (hg : get_counterexample st o = .ok (true, some (ec, ua)))
    (hstall : stallDetected st ec ua = false)
    (hana : analyze_counterexample
      { st with last_counterexample_existentials := some ec,
                last_counterexample_universals := some ua } ec ua = .ok st2)
    (hexp : eo.solve st2.exp_clauses = false) :
    solveStep st o eo = .ok (.unsat (ec, ua)) := by
  unfold solveStep
  rw [hg]
  dsimp only
  rw [hstall, hana]
  dsimp only
  rw [hexp]
  rfl

theorem solveStep_of_exp_sat {st : SolverState} {o : SatOracle}
    {eo : ExpOracle} {ec ua : List Int} {st2 : SolverState}
    (hg : get_counterexample st o = .ok (true, some (ec, ua)))
    (hstall : stallDetected st ec ua = false)
    (hana : analyze_counterexample
      { st with last_counterexample_existentials := some ec,
                last_counterexample_universals := some ua } ec ua = .ok st2)
    (hexp : eo.solve st2.exp_clauses = true) :
    solveStep st o eo = .ok (.next
      { st2 with
        expansion_variable_assignment :=
          (eo.model st2.exp_clauses).filter (fun lit =>
            st2.expansion_vars_set.contains (iabs lit)) }
      (ec, ua)) := by
  unfold solveStep
  rw [hg]
  dsimp only
  rw [hstall, hana]
  dsimp only
  rw [hexp]
  rfl

/-- The claim of `C4`, per iteration of the driver loop: the iteration returns
SAT exactly when `get_counterexample` reports no counterexample; it returns
UNSAT exactly when a counterexample was found, the stall check passed, and
after refinement the expansion solver's solve call is UNSAT; and whenever it
continues, the stored expansion assignment for the next iteration is the
expansion solver's model projected to the expansion-variable id set. -/
theorem solveStep_spec (st : SolverState) (o : SatOracle) (eo : ExpOracle) :
    (solveStep st o eo = .ok .sat ↔
      get_counterexample st o = .ok (false, none)) ∧
    (∀ ec ua, solveStep st o eo = .ok (.unsat (ec, ua)) ↔
      (get_counterexample st o = .ok (true, some (ec, ua)) ∧
       stallDetected st ec ua = false ∧
       ∃ st2, analyze_counterexample
           { st with last_counterexample_existentials := some ec,
                     last_counterexample_universals := some ua } ec ua =
           .ok st2 ∧
         eo.solve st2.exp_clauses = false)) ∧
    (∀ st3 cx, solveStep st o eo = .ok (.next st3 cx) →
      st3.expansion_variable_assignment =
        (eo.model st3.exp_clauses).filter
          (fun lit => st3.expansion_vars_set.contains (iabs lit))) := by
  refine ⟨⟨?_, ?_⟩, fun ec ua => ⟨?_, ?_⟩, fun st3 cx => ?_⟩
  · intro h
    rcases hg : get_counterexample st o with msg | ⟨has, cx⟩
    · rw [solveStep_of_error hg] at h
      cases h
    · cases has
      · have hc := get_counterexample_false_none hg rfl
        rw [hc]
      · cases cx with
        | none =>
          rw [solveStep_of_missing_cx hg] at h
          cases h
        | some p =>
          obtain ⟨ec, ua⟩ := p
          cases hstall : stallDetected st ec ua
          · rcases hana : analyze_counterexample
                { st with last_counterexample_existentials := some ec,
                          last_counterexample_universals := some ua } ec ua
              with msg | st2
            · rw [solveStep_of_analyze_error hg hstall hana] at h
              cases h
            · cases hexp : eo.solve st2.exp_clauses
              · rw [solveStep_of_exp_unsat hg hstall hana hexp] at h
                simp at h
              · rw [solveStep_of_exp_sat hg hstall hana hexp] at h
                simp at h
          · rw [solveStep_of_stall hg hstall] at h
            cases h
  · intro hg
    exact solveStep_of_no_cx hg
  · intro h
    rcases hg : get_counterexample st o with msg | ⟨has, cx⟩
    · rw [solveStep_of_error hg] at h
      cases h
    · cases has
      · rw [solveStep_of_no_cx hg] at h
        simp at h
      · cases cx with
        | none =>
          rw [solveStep_of_missing_cx hg] at h
          cases h
        | some p =>
          obtain ⟨ec', ua'⟩ := p
          cases hstall : stallDetected st ec' ua'
          · rcases hana : analyze_counterexample
                { st with last_counterexample_existentials := some ec',
                          last_counterexample_universals := some ua' } ec' ua'
              with msg | st2
            · rw [solveStep_of_analyze_error hg hstall hana] at h
              cases h
            · cases hexp : eo.solve st2.exp_clauses
              · rw [solveStep_of_exp_unsat hg hstall hana hexp] at h
                simp only [Except.ok.injEq, StepOutcome.unsat.injEq,
                  Prod.mk.injEq] at h
                obtain ⟨h1, h2⟩ := h
                subst h1
                subst h2
                exact ⟨rfl, hstall, st2, hana, hexp⟩
              · rw [solveStep_of_exp_sat hg hstall hana hexp] at h
                simp at h
          · rw [solveStep_of_stall hg hstall] at h
            cases h
  · rintro ⟨hg, hstall, st2, hana, hexp⟩
    exact solveStep_of_exp_unsat hg hstall hana hexp
  · intro h
    rcases hg : get_counterexample st o with msg | ⟨has, cx⟩
    · rw [solveStep_of_error hg] at h
      cases h
    · cases has
      · rw [solveStep_of_no_cx hg] at h
        simp at h
      · cases cx with
        | none =>
          rw [solveStep_of_missing_cx hg] at h
          cases h
        | some p =>
          obtain ⟨ec', ua'⟩ := p
          cases hstall : stallDetected st ec' ua'
          · rcases hana : analyze_counterexample
                { st with last_counterexample_existentials := some ec',
                          last_counterexample_universals := some ua' } ec' ua'
              with msg | st2
            · rw [solveStep_of_analyze_error hg hstall hana] at h
              cases h
            · cases hexp : eo.solve st2.exp_clauses
              · rw [solveStep_of_exp_unsat hg hstall hana hexp] at h
                simp at h
              · rw [solveStep_of_exp_sat hg hstall hana hexp] at h
                simp only [Except.ok.injEq, StepOutcome.next.injEq] at h
                obtain ⟨h1, h2⟩ := h
                rw [← h1]
          · rw [solveStep_of_stall hg hstall] at h
            cases h

/-- Witness for `solveStep_spec`: the SAT branch (oracle finds no
counterexample), the UNSAT branch (expansion solver reports UNSAT right after
the first refinement), and the continue branch (the next-iteration state built
by the `o7`/`eo7` run stores the projected expansion model). -/
theorem solveStep_spec_witness :
    solveStep demoC7 oNoCx eo7 = .ok .sat ∧
    solveStep demoC7 o7 eoUnsat = .ok (.unsat ([2], [1])) ∧
    demoNext.expansion_variable_assignment =
      (eo7.model demoNext.exp_clauses).filter (fun lit =>
        demoNext.expansion_vars_set.contains (iabs lit)) := by
  refine ⟨?_, ?_, ?_⟩
  · exact (solveStep_spec demoC7 oNoCx eo7).1.mpr rfl
  · exact ((solveStep_spec demoC7 o7 eoUnsat).2.1 [2] [1]).mpr
      ⟨rfl, rfl, demoAnalyzed2, rfl, rfl⟩
  · exact (solveStep_spec demoC7 o7 eo7).2.2 demoNext ([2], [1]) rfl

/-- Counterexample to the claim of `C7` as stated: under the deterministic
oracles `o7`/`eo7` the driver run from the freshly constructed demo state
consumes the counterexamples A = `([2], [1])`, B = `([-2], [-1])`, A again —
a repeated counterexample (same existential core, same universal assignment)
— and does not abort: the third iteration continues, and the run ends SAT on
the fourth.  The driver only compares against the immediately preceding
counterexample, so a non-adjacent repeat is not detected. -/
theorem solveLoop_nonadjacent_repeat_not_aborted :
    (solveLoop o7 eo7 4 demoC7).toOption =
      some ([([2], [1]), ([-2], [-1]), ([2], [1])], LoopOutcome.sat) ∧
    ¬ ([([2], [1]), ([-2], [-1]), ([2], [1])] :
        List (List Int × List Int)).Nodup :=
  ⟨rfl, by decide⟩

/-- The amended claim of `C7`: a counterexample identical *as a Python set* to
the immediately preceding one is a fatal abort (`sys.exit`), never a continued
iteration; the driver keeps only the previous iteration's fingerprint, so this
is the full extent of its repeat detection. -/
theorem solveStep_consecutive_repeat_aborts (st : SolverState) (o : SatOracle)
    (eo : ExpOracle) (ec ua le lu : List Int)
    (hg : get_counterexample st o = .ok (true, some (ec, ua)))
    (hle : st.last_counterexample_existentials = some le)
    (hlu : st.last_counterexample_universals = some lu)
    (he : listSetEq ec le = true) (hu : listSetEq ua lu = true) :
    solveStep st o eo = .error "Same counterexample seen twice in a row" := by
  apply solveStep_of_stall hg
  simp [stallDetected, hle, hlu, he, hu]

/-- Witness for `solveStep_consecutive_repeat_aborts`: with the fingerprint of
`([2], [1])` stored and `o7` producing the same counterexample again, the
iteration aborts. -/
theorem solveStep_consecutive_repeat_aborts_witness :
    solveStep demoStall1 o7 eo7 =
      .error "Same counterexample seen twice in a row" :=
  solveStep_consecutive_repeat_aborts demoStall1 o7 eo7 [2] [1] [2] [1]
    rfl rfl rfl (by decide) (by decide)

/-!  Field-preservation lemmas for the refinement operations. -/

theorem set_default_value_ok_fields {st st' : SolverState} {e : Int} {v : Bool}
    (h : set_default_value st e v = .ok st') :
    st'.expansion_vars = st.expansion_vars ∧
    st'.exp_clauses = st.exp_clauses ∧
    st'.dependencies_by_id = st.dependencies_by_id ∧
    st'.existential_var_ids = st.existential_var_ids := by
  unfold set_default_value at h
  cases hlv : alistLookup st.value_vars e with
  | none =>
    rw [hlv] at h
    cases h
  | some v0 =>
    rw [hlv] at h
    dsimp only at h
    injection h with h1
    subst h1
    exact ⟨rfl, rfl, rfl, rfl⟩

theorem add_rule_ok_fields {st st' : SolverState} {e : Int} {p : List Int}
    {c : Bool} {vv : Option Int} (h : add_rule st e p c vv = .ok st') :
    st'.expansion_vars = st.expansion_vars ∧
    st'.exp_clauses = st.exp_clauses ∧
    st'.dependencies_by_id = st.dependencies_by_id ∧
    st'.existential_var_ids = st.existential_var_ids ∧
    st'.expansion_vars_set = st.expansion_vars_set := by
  unfold add_rule at h
  cases hlv : alistLookup st.value_vars e with
  | none =>
    rw [hlv] at h
    cases h
  | some value_entry =>
    rw [hlv] at h
    dsimp only at h
    cases hln : alistLookup st.no_rule_fired_vars e with
    | none =>
      rw [hln] at h
      cases hlf : alistLookup st.rule_fire_vars e <;> rw [hlf] at h <;> cases h
    | some prev =>
      rw [hln] at h
      cases hlf : alistLookup st.rule_fire_vars e with
      | none =>
        rw [hlf] at h
        cases h
      | some fire =>
        rw [hlf] at h
        dsimp only at h
        injection h with h1
        subst h1
        exact ⟨rfl, rfl, rfl, rfl, rfl⟩

/-- The error/success shape of `add_rule` does not depend on the premise:
the only failure is the uninitialized-variable lookup, which happens before
the premise is used. -/
theorem add_rule_result_shape (st : SolverState) (e : Int) (p p' : List Int)
    (c : Bool) (vv : Option Int) :
    Except.map (fun _ => ()) (add_rule st e p c vv) =
    Except.map (fun _ => ()) (add_rule st e p' c vv) := by
  unfold add_rule
  cases alistLookup st.value_vars e with
  | none => rfl
  | some value_entry =>
    cases alistLookup st.no_rule_fired_vars e with
    | none => cases alistLookup st.rule_fire_vars e <;> rfl
    | some prev => cases alistLookup st.rule_fire_vars e <;> rfl

/-- Exact effect of `set_default_value` on the value map: the current entry is
replaced by itself when `value` is `True` and by its negation when `value` is
`False` (the sign-flip semantics of the code), and the counter is untouched. -/
theorem set_default_value_semantics {st st' : SolverState} {e : Int} {b : Bool}
    (h : set_default_value st e b = .ok st') :
    ∃ v, alistLookup st.value_vars e = some v ∧
      st'.value_vars = alistInsert st.value_vars e (if b then v else -v) ∧
      st'.counter = st.counter := by
  unfold set_default_value at h
  cases hlv : alistLookup st.value_vars e with
  | none =>
    rw [hlv] at h
    cases h
  | some v =>
    rw [hlv] at h
    dsimp only at h
    injection h with h1
    subst h1
    exact ⟨v, rfl, rfl, rfl⟩

/-- `add_rule` installs the freshly allocated `next_value_var = counter + 3` as
the existential's current value variable and advances the counter to it. -/
theorem add_rule_value_entry {st st' : SolverState} {e : Int} {p : List Int}
    {c : Bool} {vv : Option Int} (h : add_rule st e p c vv = .ok st') :
    st'.value_vars = alistInsert st.value_vars e (st.counter + 3) ∧
    st'.counter = st.counter + 3 := by
  unfold add_rule at h
  cases hlv : alistLookup st.value_vars e with
  | none =>
    rw [hlv] at h
    cases h
  | some value_entry =>
    rw [hlv] at h
    dsimp only at h
    cases hln : alistLookup st.no_rule_fired_vars e with
    | none =>
      rw [hln] at h
      cases hlf : alistLookup st.rule_fire_vars e <;> rw [hlf] at h <;> cases h
    | some prev =>
      rw [hln] at h
      cases hlf : alistLookup st.rule_fire_vars e with
      | none =>
        rw [hlf] at h
        cases h
      | some fire =>
        rw [hlf] at h
        dsimp only at h
        injection h with h1
        subst h1
        exact ⟨rfl, rfl⟩

/-- Case analysis of a successful `get_expansion_variable st e a`: either the
canonical key `(e, sorted a)` was already interned and the state is returned
unchanged, or the key was fresh, the registry gains it under id `counter + 1`,
the current value variable of `e` becomes the freshly allocated `counter + 4`
(still positive in any run started from a nonnegative counter) and the counter
advances to `counter + 4`. -/
theorem get_expansion_variable_cases {st : SolverState} {e x : Int}
    {a : List Int} {st1 : SolverState}
    (h : get_expansion_variable st e a = .ok (x, st1)) :
    (alistLookup st.expansion_vars (e, sortByAbs a) = some x ∧ st1 = st) ∨
    (alistLookup st.expansion_vars (e, sortByAbs a) = none ∧
      st1.counter = st.counter + 4 ∧
      st1.value_vars = alistInsert st.value_vars e (st.counter + 4) ∧
      st1.expansion_vars =
        alistInsert st.expansion_vars (e, sortByAbs a) (st.counter + 1)) := by
  unfold get_expansion_variable at h
  split at h
  · cases h
  · dsimp only at h
    split at h
    · cases h
    · cases hk : alistLookup st.expansion_vars (e, sortByAbs a) with
      | some v =>
        rw [hk] at h
        dsimp only at h
        simp only [Except.ok.injEq, Prod.mk.injEq] at h
        obtain ⟨hvx, hst⟩ := h
        subst hvx
        subst hst
        exact Or.inl ⟨rfl, rfl⟩
      | none =>
        rw [hk] at h
        dsimp only at h
        cases har : add_rule
            { st with
              counter := st.counter + 1
              id_to_name :=
                match alistLookup st.id_to_name e with
                | some exist_name =>
                  alistInsert st.id_to_name (st.counter + 1)
                    ("exp_" ++ exist_name ++ "_" ++
                      assignmentStr (sortByAbs a))
                | none => st.id_to_name
              expansion_vars :=
                alistInsert st.expansion_vars (e, sortByAbs a)
                  (st.counter + 1) }
            e a true (some (st.counter + 1)) with
        | error msg =>
          rw [har] at h
          cases h
        | ok st2 =>
          rw [har] at h
          dsimp only at h
          simp only [Except.ok.injEq, Prod.mk.injEq] at h
          obtain ⟨hvx, hst⟩ := h
          subst hvx
          subst hst
          obtain ⟨hval, hcnt⟩ := add_rule_value_entry har
          obtain ⟨hev, -, -, -, -⟩ := add_rule_ok_fields har
          have h14 : st.counter + 1 + 3 = st.counter + 4 := by ring
          refine Or.inr ⟨rfl, ?_, ?_, ?_⟩
          · show st2.counter = st.counter + 4
            rw [hcnt]
            show st.counter + 1 + 3 = st.counter + 4
            exact h14
          · show st2.value_vars = alistInsert st.value_vars e (st.counter + 4)
            rw [hval]
            show alistInsert st.value_vars e (st.counter + 1 + 3) =
              alistInsert st.value_vars e (st.counter + 4)
            rw [h14]
          · show st2.expansion_vars =
              alistInsert st.expansion_vars (e, sortByAbs a) (st.counter + 1)
            rw [hev]

theorem get_expansion_variable_ok {st : SolverState} {e x : Int}
    {a : List Int} {st1 : SolverState}
    (h : get_expansion_variable st e a = .ok (x, st1)) :
    alistLookup st1.expansion_vars (e, sortByAbs a) = some x ∧
    st1.exp_clauses = st.exp_clauses ∧
    st1.dependencies_by_id = st.dependencies_by_id ∧
    st1.existential_var_ids = st.existential_var_ids ∧
    (∀ k v, alistLookup st.expansion_vars k = some v →
      alistLookup st1.expansion_vars k = some v) ∧
    st.existential_var_ids.contains e = true ∧
    (a.all fun lit =>
      ((alistLookup st.dependencies_by_id e).getD []).contains (iabs lit)) =
      true := by
  unfold get_expansion_variable at h
  split at h
  · cases h
  · rename_i hcontains
    have hcon : st.existential_var_ids.contains e = true := by
      cases hc : st.existential_var_ids.contains e
      · exact absurd hc hcontains
      · rfl
    dsimp only at h
    split at h
    · cases h
    · rename_i hallne
      have hall : (a.all fun lit =>
          ((alistLookup st.dependencies_by_id e).getD []).contains (iabs lit))
          = true := by
        cases hc : a.all fun lit =>
            ((alistLookup st.dependencies_by_id e).getD []).contains (iabs lit)
        · exact absurd hc hallne
        · rfl
      cases hk : alistLookup st.expansion_vars (e, sortByAbs a) with
      | some v =>
        rw [hk] at h
        dsimp only at h
        simp only [Except.ok.injEq, Prod.mk.injEq] at h
        obtain ⟨hvx, hst⟩ := h
        subst hvx
        subst hst
        exact ⟨hk, rfl, rfl, rfl, fun k v hv => hv, hcon, hall⟩
      | none =>
        rw [hk] at h
        dsimp only at h
        cases har : add_rule
            { st with
              counter := st.counter + 1
              id_to_name :=
                match alistLookup st.id_to_name e with
                | some exist_name =>
                  alistInsert st.id_to_name (st.counter + 1)
                    ("exp_" ++ exist_name ++ "_" ++
                      assignmentStr (sortByAbs a))
                | none => st.id_to_name
              expansion_vars :=
                alistInsert st.expansion_vars (e, sortByAbs a)
                  (st.counter + 1) }
            e a true (some (st.counter + 1)) with
        | error msg =>
          rw [har] at h
          cases h
        | ok st2 =>
          rw [har] at h
          dsimp only at h
          simp only [Except.ok.injEq, Prod.mk.injEq] at h
          obtain ⟨hvx, hst⟩ := h
          subst hvx
          subst hst
          obtain ⟨hev, hec, hdep, hex, hset⟩ := add_rule_ok_fields har
          refine ⟨?_, ?_, ?_, ?_, ?_, hcon, hall⟩
          · show alistLookup st2.expansion_vars (e, sortByAbs a) = _
            rw [hev]
            exact alistLookup_insert_self _ _ _
          · exact hec
          · exact hdep
          · exact hex
          · intro k v hv
            show alistLookup st2.expansion_vars k = some v
            rw [hev]
            exact alistLookup_insert_preserve hk hv

/-- The claim of `C5`: expansion interning is canonical and idempotent.  For an
assignment with pairwise distinct variables, any permutation yields the same
expansion variable id (the canonical abs-sorted key coincides); and once
`get_expansion_variable st e a` has returned `(x, st1)`, calling it again on
`st1` with any permutation of `a` returns the stored `x` with the state
entirely unchanged — no fresh id, no new rule, no new clauses. -/
theorem get_expansion_variable_canonical (st : SolverState) (e : Int)
    (a a' : List Int) (hperm : List.Perm a' a)
    (hnd : (a.map Int.natAbs).Nodup) :
    (Except.map Prod.fst (get_expansion_variable st e a') =
      Except.map Prod.fst (get_expansion_variable st e a)) ∧
    (∀ x st1, get_expansion_variable st e a = .ok (x, st1) →
      get_expansion_variable st1 e a' = .ok (x, st1)) := by
  have hsort : sortByAbs a' = sortByAbs a := sortByAbs_eq_of_perm hperm hnd
  constructor
  · unfold get_expansion_variable
    dsimp only
    rw [hsort, perm_all_eq hperm]
    by_cases h1 : st.existential_var_ids.contains e = false
    · rw [if_pos h1, if_pos h1]
    · rw [if_neg h1, if_neg h1]
      by_cases h2 : (a.all fun lit =>
          ((alistLookup st.dependencies_by_id e).getD []).contains (iabs lit))
          = false
      · rw [if_pos h2, if_pos h2]
      · rw [if_neg h2, if_neg h2]
        cases hk : alistLookup st.expansion_vars (e, sortByAbs a) with
        | some v => rfl
        | none =>
          dsimp only
          have hshape := add_rule_result_shape
            { st with
              counter := st.counter + 1
              id_to_name :=
                match alistLookup st.id_to_name e with
                | some exist_name =>
                  alistInsert st.id_to_name (st.counter + 1)
                    ("exp_" ++ exist_name ++ "_" ++
                      assignmentStr (sortByAbs a))
                | none => st.id_to_name
              expansion_vars :=
                alistInsert st.expansion_vars (e, sortByAbs a)
                  (st.counter + 1) }
            e a' a true (some (st.counter + 1))
          cases har' : add_rule
              { st with
                counter := st.counter + 1
                id_to_name :=
                  match alistLookup st.id_to_name e with
                  | some exist_name =>
                    alistInsert st.id_to_name (st.counter + 1)
                      ("exp_" ++ exist_name ++ "_" ++
                        assignmentStr (sortByAbs a))
                  | none => st.id_to_name
                expansion_vars :=
                  alistInsert st.expansion_vars (e, sortByAbs a)
                    (st.counter + 1) }
              e a' true (some (st.counter + 1)) with
          | error m' =>
            cases har : add_rule
                { st with
                  counter := st.counter + 1
                  id_to_name :=
                    match alistLookup st.id_to_name e with
                    | some exist_name =>
                      alistInsert st.id_to_name (st.counter + 1)
                        ("exp_" ++ exist_name ++ "_" ++
                          assignmentStr (sortByAbs a))
                    | none => st.id_to_name
                  expansion_vars :=
                    alistInsert st.expansion_vars (e, sortByAbs a)
                      (st.counter + 1) }
                e a true (some (st.counter + 1)) with
            | error m =>
              rw [har', har] at hshape
              simp only [Except.map] at hshape
              injection hshape with hm
              rw [hm]
            | ok st2 =>
              rw [har', har] at hshape
              simp only [Except.map] at hshape
              cases hshape
          | ok st2of =>
            cases har : add_rule
                { st with
                  counter := st.counter + 1
                  id_to_name :=
                    match alistLookup st.id_to_name e with
                    | some exist_name =>
                      alistInsert st.id_to_name (st.counter + 1)
                        ("exp_" ++ exist_name ++ "_" ++
                          assignmentStr (sortByAbs a))
                    | none => st.id_to_name
                  expansion_vars :=
                    alistInsert st.expansion_vars (e, sortByAbs a)
                      (st.counter + 1) }
                e a true (some (st.counter + 1)) with
            | error m =>
              rw [har', har] at hshape
              simp only [Except.map] at hshape
              cases hshape
            | ok st2 => rfl
  · intro x st1 h
    obtain ⟨hlook, _, hdep, hex, _, hcon, hall⟩ := get_expansion_variable_ok h
    have hcon1 : st1.existential_var_ids.contains e = true := by
      rw [hex]
      exact hcon
    unfold get_expansion_variable
    dsimp only
    rw [hsort, hcon1, hdep, perm_all_eq hperm, hall, hlook]
    rfl

/-- An element of a list is its `getD` at some index below the length. -/
theorem mem_getD_index {α : Type} (d : α) {xs : List α} {a : α} (h : a ∈ xs) :
    ∃ k, k < xs.length ∧ xs.getD k d = a := by
  induction xs with
  | nil => cases h
  | cons y ys ih =>
    cases h with
    | head => exact ⟨0, by simp, rfl⟩
    | tail _ htl =>
      obtain ⟨k, hk, hkd⟩ := ih htl
      exact ⟨k + 1, by rw [List.length_cons]; omega, hkd⟩

/-- Loop invariant of `analyzeLoop`: the expansion-solver clauses and the
dependency map are untouched, the expansion registry only grows, the value
map is untouched at existentials not occurring in the core, and the
accumulated blocking clause gains exactly one literal per processed core
literal — the (negated, for positive core literals) expansion variable interned
for that existential under the restriction of the universal assignment to its
dependency set.  The loop moreover sets the default of each processed
existential via `set_default_value(e, False/True)`: for a core literal whose
variable occurs only once in the core, a freshly interned key leaves the
existential's value literal negative when the core literal is positive
(default `False`) and positive when it is negative (default `True`), while an
already interned key leaves the value literal sign-flipped respectively
unchanged, per the sign-flip code of `set_default_value`. -/
theorem analyzeLoop_spec (ul el : List Int) :
    ∀ (st : SolverState) (acc cl' : List Int) (st' : SolverState),
      analyzeLoop ul el st acc = .ok (st', cl') →
      st'.exp_clauses = st.exp_clauses ∧
      st'.dependencies_by_id = st.dependencies_by_id ∧
      (∀ k v, alistLookup st.expansion_vars k = some v →
        alistLookup st'.expansion_vars k = some v) ∧
      (∀ e, (∀ lit ∈ el, iabs lit ≠ e) →
        alistLookup st'.value_vars e = alistLookup st.value_vars e) ∧
      (∀ i, i < el.length →
        (∀ j, j < el.length → iabs (el.getD j 0) = iabs (el.getD i 0) → j = i) →
        (alistLookup st.expansion_vars
            (iabs (el.getD i 0),
             sortByAbs (ul.filter (fun lit =>
               ((alistLookup st.dependencies_by_id
                 (iabs (el.getD i 0))).getD []).contains (iabs lit)))) = none →
          0 ≤ st.counter →
          ∃ w, alistLookup st'.value_vars (iabs (el.getD i 0)) = some w ∧
            (0 < el.getD i 0 → w < 0) ∧ (el.getD i 0 < 0 → 0 < w)) ∧
        (∀ v, alistLookup st.value_vars (iabs (el.getD i 0)) = some v →
          (alistLookup st.expansion_vars
            (iabs (el.getD i 0),
             sortByAbs (ul.filter (fun lit =>
               ((alistLookup st.dependencies_by_id
                 (iabs (el.getD i 0))).getD []).contains
                   (iabs lit))))).isSome = true →
          alistLookup st'.value_vars (iabs (el.getD i 0)) =
            some (if 0 < el.getD i 0 then -v else v))) ∧
      ∃ B, cl' = acc ++ B ∧ B.length = el.length ∧
        (∀ i, i < el.length →
          ∃ x, alistLookup st'.expansion_vars
              (iabs (el.getD i 0),
               sortByAbs (ul.filter (fun lit =>
                 ((alistLookup st.dependencies_by_id
                   (iabs (el.getD i 0))).getD []).contains (iabs lit)))) =
            some x ∧
            (0 < el.getD i 0 → B.getD i 0 = -x) ∧
            (el.getD i 0 < 0 → B.getD i 0 = x)) := by
  induction el with
  | nil =>
    intro st acc cl' st' h
    unfold analyzeLoop at h
    injection h with h1
    injection h1 with h2 h3
    subst h2
    subst h3
    refine ⟨rfl, rfl, fun k v hv => hv, fun e _ => rfl,
      fun i hi => absurd hi (by simp), [], (List.append_nil acc).symm, rfl,
      fun i hi => absurd hi (by simp)⟩
  | cons l rest ih =>
    intro st acc cl' st' h
    unfold analyzeLoop at h
    dsimp only at h
    cases hge : get_expansion_variable st (iabs l)
        (ul.filter (fun lit =>
          ((alistLookup st.dependencies_by_id (iabs l)).getD []).contains
            (iabs lit))) with
    | error m =>
      rw [hge] at h
      cases h
    | ok p =>
      obtain ⟨x, s1⟩ := p
      rw [hge] at h
      dsimp only at h
      obtain ⟨hge_look, hge_ec, hge_dep, hge_ex, hge_mono, _, _⟩ :=
        get_expansion_variable_ok hge
      have hge_cases := get_expansion_variable_cases hge
      by_cases hl : l > 0
      · rw [if_pos hl] at h
        cases hsd : set_default_value s1 (iabs l) false with
        | error m =>
          rw [hsd] at h
          cases h
        | ok s2 =>
          rw [hsd] at h
          dsimp only at h
          obtain ⟨hsd_ev, hsd_ec, hsd_dep, hsd_ex⟩ :=
            set_default_value_ok_fields hsd
          obtain ⟨v0, hv0, hs2v0, hs2c⟩ := set_default_value_semantics hsd
          have hs2v : s2.value_vars =
              alistInsert s1.value_vars (iabs l) (-v0) := hs2v0
          obtain ⟨hec, hdep, hmono, hvframe, hdelta, B, hB, hlen, hidx⟩ :=
            ih s2 (acc ++ [-x]) cl' st' h
          have hdep2 : s2.dependencies_by_id = st.dependencies_by_id := by
            rw [hsd_dep, hge_dep]
          have hexp_pres : ∀ k : Int × List Int, k.1 ≠ iabs l →
              alistLookup s2.expansion_vars k =
                alistLookup st.expansion_vars k := by
            intro k hk
            rw [hsd_ev]
            rcases hge_cases with ⟨-, hs1⟩ | ⟨-, -, -, hs1e⟩
            · rw [hs1]
            · rw [hs1e, alistLookup_insert,
                if_neg (fun hkey => hk (congrArg Prod.fst hkey).symm)]
          have hval_pres : ∀ e : Int, e ≠ iabs l →
              alistLookup s2.value_vars e = alistLookup st.value_vars e := by
            intro e he
            rw [hs2v, alistLookup_insert, if_neg (fun hkey => he hkey.symm)]
            rcases hge_cases with ⟨-, hs1⟩ | ⟨-, -, hs1v, -⟩
            · rw [hs1]
            · rw [hs1v, alistLookup_insert, if_neg (fun hkey => he hkey.symm)]
          have hcnt1 : s1.counter = st.counter ∨
              s1.counter = st.counter + 4 := by
            rcases hge_cases with ⟨-, hs1⟩ | ⟨-, hc, -, -⟩
            · exact Or.inl (by rw [hs1])
            · exact Or.inr hc
          refine ⟨?_, ?_, ?_, ?_, ?_, (-x) :: B, ?_, ?_, ?_⟩
          · rw [hec, hsd_ec, hge_ec]
          · rw [hdep, hsd_dep, hge_dep]
          · intro k v hv
            apply hmono
            rw [hsd_ev]
            exact hge_mono k v hv
          · intro e he
            have hne : iabs l ≠ e := he l (List.mem_cons_self l rest)
            have hrest : ∀ lit ∈ rest, iabs lit ≠ e := fun lit hlit =>
              he lit (List.mem_cons_of_mem l hlit)
            rw [hvframe e hrest]
            exact hval_pres e (Ne.symm hne)
          · intro i hi huniq
            cases i with
            | zero =>
              have hrestne : ∀ lit ∈ rest, iabs lit ≠ iabs l := by
                intro lit hlit heq
                obtain ⟨k, hklt, hkd⟩ := mem_getD_index 0 hlit
                have h2 := huniq (k + 1) (by rw [List.length_cons]; omega)
                  (show iabs (rest.getD k 0) = iabs l by rw [hkd]; exact heq)
                omega
              refine ⟨?_, ?_⟩
              · intro hfresh hcnt
                have hfresh' : alistLookup st.expansion_vars
                    (iabs l,
                     sortByAbs (ul.filter (fun lit =>
                       ((alistLookup st.dependencies_by_id
                         (iabs l)).getD []).contains (iabs lit)))) = none :=
                  hfresh
                rcases hge_cases with ⟨hsome, -⟩ | ⟨-, hc1, hs1v, -⟩
                · rw [hfresh'] at hsome
                  exact absurd hsome (by simp)
                · have hv0' : v0 = st.counter + 4 := by
                    rw [hs1v, alistLookup_insert_self] at hv0
                    injection hv0 with h4
                    exact h4.symm
                  refine ⟨-v0, ?_, fun _ => by omega, fun hneg => ?_⟩
                  · show alistLookup st'.value_vars (iabs l) = some (-v0)
                    rw [hvframe (iabs l) hrestne, hs2v, alistLookup_insert_self]
                  · exact absurd (show l < 0 from hneg) (by omega)
              · intro v hv hxk
                have hv' : alistLookup st.value_vars (iabs l) = some v := hv
                rcases hge_cases with ⟨-, hs1⟩ | ⟨hnone, -, -, -⟩
                · rw [hs1] at hv0
                  rw [hv'] at hv0
                  injection hv0 with hveq
                  show alistLookup st'.value_vars (iabs l) =
                    some (if 0 < l then -v else v)
                  rw [if_pos hl, hvframe (iabs l) hrestne, hs2v,
                    alistLookup_insert_self, hveq]
                · have hxk' : (alistLookup st.expansion_vars
                      (iabs l,
                       sortByAbs (ul.filter (fun lit =>
                         ((alistLookup st.dependencies_by_id
                           (iabs l)).getD []).contains
                             (iabs lit))))).isSome = true := hxk
                  rw [hnone] at hxk'
                  simp at hxk'
            | succ j =>
              have hj : j < rest.length := by
                rw [List.length_cons] at hi
                omega
              have huniq' : ∀ j', j' < rest.length →
                  iabs (rest.getD j' 0) = iabs (rest.getD j 0) → j' = j := by
                intro j' hj' heq
                have h2 := huniq (j' + 1) (by rw [List.length_cons]; omega) heq
                omega
              have hne0 : iabs (rest.getD j 0) ≠ iabs l := by
                intro heq
                have h2 := huniq 0 (by rw [List.length_cons]; omega) heq.symm
                omega
              obtain ⟨hfreshIH, hrepIH⟩ := hdelta j hj huniq'
              rw [hdep2] at hfreshIH hrepIH
              refine ⟨?_, ?_⟩
              · intro hfresh hcnt
                apply hfreshIH
                · exact Eq.trans (hexp_pres
                    (iabs (rest.getD j 0),
                     sortByAbs (ul.filter (fun lit =>
                       ((alistLookup st.dependencies_by_id
                         (iabs (rest.getD j 0))).getD []).contains (iabs lit))))
                    hne0) hfresh
                · rw [hs2c]
                  rcases hcnt1 with hcv | hcv <;> rw [hcv] <;> omega
              · intro v hv hxk
                have hv2 : alistLookup s2.value_vars
                    (iabs (rest.getD j 0)) = some v :=
                  Eq.trans (hval_pres (iabs (rest.getD j 0)) hne0) hv
                have hxk2 : (alistLookup s2.expansion_vars
                    (iabs (rest.getD j 0),
                     sortByAbs (ul.filter (fun lit =>
                       ((alistLookup st.dependencies_by_id
                         (iabs (rest.getD j 0))).getD []).contains
                           (iabs lit))))).isSome = true := by
                  rw [hexp_pres
                    (iabs (rest.getD j 0),
                     sortByAbs (ul.filter (fun lit =>
                       ((alistLookup st.dependencies_by_id
                         (iabs (rest.getD j 0))).getD []).contains (iabs lit))))
                    hne0]
                  exact hxk
                exact hrepIH v hv2 hxk2
          · rw [hB, List.append_assoc]
            rfl
          · rw [List.length_cons, List.length_cons, hlen]
          · intro i hi
            cases i with
            | zero =>
              refine ⟨x, ?_, fun _ => rfl, fun hneg => ?_⟩
              · apply hmono
                rw [hsd_ev]
                exact hge_look
              · exact absurd (show l < 0 from hneg) (by omega)
            | succ j =>
              have hj : j < rest.length := by
                rw [List.length_cons] at hi
                omega
              obtain ⟨x2, hx2, hp2, hn2⟩ := hidx j hj
              rw [hsd_dep, hge_dep] at hx2
              exact ⟨x2, hx2, hp2, hn2⟩
      · rw [if_neg hl] at h
        cases hsd : set_default_value s1 (iabs l) true with
        | error m =>
          rw [hsd] at h
          cases h
        | ok s2 =>
          rw [hsd] at h
          dsimp only at h
          obtain ⟨hsd_ev, hsd_ec, hsd_dep, hsd_ex⟩ :=
            set_default_value_ok_fields hsd
          obtain ⟨v0, hv0, hs2v0, hs2c⟩ := set_default_value_semantics hsd
          have hs2v : s2.value_vars =
              alistInsert s1.value_vars (iabs l) v0 := hs2v0
          obtain ⟨hec, hdep, hmono, hvframe, hdelta, B, hB, hlen, hidx⟩ :=
            ih s2 (acc ++ [x]) cl' st' h
          have hdep2 : s2.dependencies_by_id = st.dependencies_by_id := by
            rw [hsd_dep, hge_dep]
          have hexp_pres : ∀ k : Int × List Int, k.1 ≠ iabs l →
              alistLookup s2.expansion_vars k =
                alistLookup st.expansion_vars k := by
            intro k hk
            rw [hsd_ev]
            rcases hge_cases with ⟨-, hs1⟩ | ⟨-, -, -, hs1e⟩
            · rw [hs1]
            · rw [hs1e, alistLookup_insert,
                if_neg (fun hkey => hk (congrArg Prod.fst hkey).symm)]
          have hval_pres : ∀ e : Int, e ≠ iabs l →
              alistLookup s2.value_vars e = alistLookup st.value_vars e := by
            intro e he
            rw [hs2v, alistLookup_insert, if_neg (fun hkey => he hkey.symm)]
            rcases hge_cases with ⟨-, hs1⟩ | ⟨-, -, hs1v, -⟩
            · rw [hs1]
            · rw [hs1v, alistLookup_insert, if_neg (fun hkey => he hkey.symm)]
          have hcnt1 : s1.counter = st.counter ∨
              s1.counter = st.counter + 4 := by
            rcases hge_cases with ⟨-, hs1⟩ | ⟨-, hc, -, -⟩
            · exact Or.inl (by rw [hs1])
            · exact Or.inr hc
          refine ⟨?_, ?_, ?_, ?_, ?_, x :: B, ?_, ?_, ?_⟩
          · rw [hec, hsd_ec, hge_ec]
          · rw [hdep, hsd_dep, hge_dep]
          · intro k v hv
            apply hmono
            rw [hsd_ev]
            exact hge_mono k v hv
          · intro e he
            have hne : iabs l ≠ e := he l (List.mem_cons_self l rest)
            have hrest : ∀ lit ∈ rest, iabs lit ≠ e := fun lit hlit =>
              he lit (List.mem_cons_of_mem l hlit)
            rw [hvframe e hrest]
            exact hval_pres e (Ne.symm hne)
          · intro i hi huniq
            cases i with
            | zero =>
              have hrestne : ∀ lit ∈ rest, iabs lit ≠ iabs l := by
                intro lit hlit heq
                obtain ⟨k, hklt, hkd⟩ := mem_getD_index 0 hlit
                have h2 := huniq (k + 1) (by rw [List.length_cons]; omega)
                  (show iabs (rest.getD k 0) = iabs l by rw [hkd]; exact heq)
                omega
              refine ⟨?_, ?_⟩
              · intro hfresh hcnt
                have hfresh' : alistLookup st.expansion_vars
                    (iabs l,
                     sortByAbs (ul.filter (fun lit =>
                       ((alistLookup st.dependencies_by_id
                         (iabs l)).getD []).contains (iabs lit)))) = none :=
                  hfresh
                rcases hge_cases with ⟨hsome, -⟩ | ⟨-, hc1, hs1v, -⟩
                · rw [hfresh'] at hsome
                  exact absurd hsome (by simp)
                · have hv0' : v0 = st.counter + 4 := by
                    rw [hs1v, alistLookup_insert_self] at hv0
                    injection hv0 with h4
                    exact h4.symm
                  refine ⟨v0, ?_, fun hpos => ?_, fun _ => by omega⟩
                  · show alistLookup st'.value_vars (iabs l) = some v0
                    rw [hvframe (iabs l) hrestne, hs2v, alistLookup_insert_self]
                  · exact absurd (show l > 0 from hpos) hl
              · intro v hv hxk
                have hv' : alistLookup st.value_vars (iabs l) = some v := hv
                rcases hge_cases with ⟨-, hs1⟩ | ⟨hnone, -, -, -⟩
                · rw [hs1] at hv0
                  rw [hv'] at hv0
                  injection hv0 with hveq
                  show alistLookup st'.value_vars (iabs l) =
                    some (if 0 < l then -v else v)
                  rw [if_neg hl, hvframe (iabs l) hrestne, hs2v,
                    alistLookup_insert_self, hveq]
                · have hxk' : (alistLookup st.expansion_vars
                      (iabs l,
                       sortByAbs (ul.filter (fun lit =>
                         ((alistLookup st.dependencies_by_id
                           (iabs l)).getD []).contains
                             (iabs lit))))).isSome = true := hxk
                  rw [hnone] at hxk'
                  simp at hxk'
            | succ j =>
              have hj : j < rest.length := by
                rw [List.length_cons] at hi
                omega
              have huniq' : ∀ j', j' < rest.length →
                  iabs (rest.getD j' 0) = iabs (rest.getD j 0) → j' = j := by
                intro j' hj' heq
                have h2 := huniq (j' + 1) (by rw [List.length_cons]; omega) heq
                omega
              have hne0 : iabs (rest.getD j 0) ≠ iabs l := by
                intro heq
                have h2 := huniq 0 (by rw [List.length_cons]; omega) heq.symm
                omega
              obtain ⟨hfreshIH, hrepIH⟩ := hdelta j hj huniq'
              rw [hdep2] at hfreshIH hrepIH
              refine ⟨?_, ?_⟩
              · intro hfresh hcnt
                apply hfreshIH
                · exact Eq.trans (hexp_pres
                    (iabs (rest.getD j 0),
                     sortByAbs (ul.filter (fun lit =>
                       ((alistLookup st.dependencies_by_id
                         (iabs (rest.getD j 0))).getD []).contains (iabs lit))))
                    hne0) hfresh
                · rw [hs2c]
                  rcases hcnt1 with hcv | hcv <;> rw [hcv] <;> omega
              · intro v hv hxk
                have hv2 : alistLookup s2.value_vars
                    (iabs (rest.getD j 0)) = some v :=
                  Eq.trans (hval_pres (iabs (rest.getD j 0)) hne0) hv
                have hxk2 : (alistLookup s2.expansion_vars
                    (iabs (rest.getD j 0),
                     sortByAbs (ul.filter (fun lit =>
                       ((alistLookup st.dependencies_by_id
                         (iabs (rest.getD j 0))).getD []).contains
                           (iabs lit))))).isSome = true := by
                  rw [hexp_pres
                    (iabs (rest.getD j 0),
                     sortByAbs (ul.filter (fun lit =>
                       ((alistLookup st.dependencies_by_id
                         (iabs (rest.getD j 0))).getD []).contains (iabs lit))))
                    hne0]
                  exact hxk
                exact hrepIH v hv2 hxk2
          · rw [hB, List.append_assoc]
            rfl
          · rw [List.length_cons, List.length_cons, hlen]
          · intro i hi
            cases i with
            | zero =>
              refine ⟨x, ?_, fun hpos => ?_, fun _ => rfl⟩
              · apply hmono
                rw [hsd_ev]
                exact hge_look
              · exact absurd (show (0 : Int) < l from hpos) hl
            | succ j =>
              have hj : j < rest.length := by
                rw [List.length_cons] at hi
                omega
              obtain ⟨x2, hx2, hp2, hn2⟩ := hidx j hj
              rw [hsd_dep, hge_dep] at hx2
              exact ⟨x2, hx2, hp2, hn2⟩

/-- The claim of `C3`: given a counterexample `(exist_core, universal_assignment)`,
refinement processes every core literal `ℓ` with variable `e`, interning the
expansion variable `x` for `e` under the restriction `a` of the universal
assignment to `D(e)` (the registry afterwards maps `(e, sorted a)` to `x`),
appends `¬x` to the blocking clause when `ℓ > 0` and `x` when `ℓ < 0` (one
literal per core literal, in order), and sets `e`'s default to `False` when
`ℓ > 0` and to `True` when `ℓ < 0` — stated on the value map: existentials
outside the core keep their value entry, and for a core literal whose
variable occurs once in the core, a freshly interned key (from a nonnegative
counter) leaves the stored value literal of `e` negative (default `False`)
when `ℓ > 0` and positive (default `True`) when `ℓ < 0`, while an already
interned key leaves it sign-flipped when `ℓ > 0` and unchanged when `ℓ < 0`,
which is what the sign-flip code of `set_default_value` makes of those
`set_default_value(e, False/True)` calls.  Finally the blocking clause — and
nothing else — is added to the expansion solver. -/
theorem analyze_counterexample_spec (st : SolverState) (el ul : List Int)
    (st' : SolverState) (h : analyze_counterexample st el ul = .ok st') :
    (∀ e, (∀ lit ∈ el, iabs lit ≠ e) →
      alistLookup st'.value_vars e = alistLookup st.value_vars e) ∧
    (∀ i, i < el.length →
      (∀ j, j < el.length → iabs (el.getD j 0) = iabs (el.getD i 0) → j = i) →
      (alistLookup st.expansion_vars
          (iabs (el.getD i 0),
           sortByAbs (ul.filter (fun lit =>
             ((alistLookup st.dependencies_by_id
               (iabs (el.getD i 0))).getD []).contains (iabs lit)))) = none →
        0 ≤ st.counter →
        ∃ w, alistLookup st'.value_vars (iabs (el.getD i 0)) = some w ∧
          (0 < el.getD i 0 → w < 0) ∧ (el.getD i 0 < 0 → 0 < w)) ∧
      (∀ v, alistLookup st.value_vars (iabs (el.getD i 0)) = some v →
        (alistLookup st.expansion_vars
          (iabs (el.getD i 0),
           sortByAbs (ul.filter (fun lit =>
             ((alistLookup st.dependencies_by_id
               (iabs (el.getD i 0))).getD []).contains
                 (iabs lit))))).isSome = true →
        alistLookup st'.value_vars (iabs (el.getD i 0)) =
          some (if 0 < el.getD i 0 then -v else v))) ∧
    ∃ B, st'.exp_clauses = st.exp_clauses ++ [B] ∧ B.length = el.length ∧
      ∀ i, i < el.length →
        ∃ x, alistLookup st'.expansion_vars
            (iabs (el.getD i 0),
             sortByAbs (ul.filter (fun lit =>
               ((alistLookup st.dependencies_by_id
                 (iabs (el.getD i 0))).getD []).contains (iabs lit)))) =
          some x ∧
          (0 < el.getD i 0 → B.getD i 0 = -x) ∧
          (el.getD i 0 < 0 → B.getD i 0 = x) := by
  unfold analyze_counterexample at h
  cases hal : analyzeLoop ul el st [] with
  | error m =>
    rw [hal] at h
    cases h
  | ok p =>
    obtain ⟨stl, cl⟩ := p
    rw [hal] at h
    dsimp only at h
    injection h with h1
    subst h1
    obtain ⟨hec, hdep, hmono, hvframe, hdelta, B, hB, hlen, hidx⟩ :=
      analyzeLoop_spec ul el st [] cl stl hal
    have hBcl : cl = B := hB
    subst hBcl
    refine ⟨hvframe, hdelta, cl, ?_, hlen, fun i hi => hidx i hi⟩
    show stl.exp_clauses ++ [cl] = st.exp_clauses ++ [cl]
    rw [hec]

/-- Witness for `analyze_counterexample_spec`: refining the demo
counterexample `([2], [1])` interns an expansion variable for existential 2
under assignment `[1]`, and — the core literal `2` being positive — sets the
default of existential 2 to `False`: its stored value literal ends up
negative. -/
theorem analyze_counterexample_spec_witness :
    (alistLookup demoAnalyzed.expansion_vars (2, [1])).isSome = true ∧
    ∃ w, alistLookup demoAnalyzed.value_vars 2 = some w ∧ w < 0 := by
  obtain ⟨hvframe, hdelta, B, hB, hlen, hidx⟩ :=
    analyze_counterexample_spec demoC7 [2] [1] demoAnalyzed rfl
  refine ⟨?_, ?_⟩
  · obtain ⟨x, hx, -, -⟩ := hidx 0 (by decide)
    exact Option.isSome_iff_exists.mpr ⟨x, hx⟩
  · obtain ⟨hfresh, -⟩ := hdelta 0 (by decide)
      (fun j hj _ => by
        simp only [List.length_cons, List.length_nil] at hj
        omega)
    obtain ⟨w, hw, hneg, -⟩ := hfresh (by decide) (by decide)
    exact ⟨w, hw, hneg (by decide)⟩

/-- Witness for `get_expansion_variable_canonical`: after interning under
`[1, -2]` (id 8), the permuted call `[-2, 1]` returns the same id and leaves
the state untouched, and from the original state both permutations return the
same id. -/
theorem get_expansion_variable_canonical_witness :
    get_expansion_variable demoC5After 3 [-2, 1] = .ok (8, demoC5After) ∧
    Except.map Prod.fst (get_expansion_variable demoC5 3 [-2, 1]) =
      Except.map Prod.fst (get_expansion_variable demoC5 3 [1, -2]) := by
  constructor
  · exact (get_expansion_variable_canonical demoC5 3 [1, -2] [-2, 1]
      (by decide) (by decide)).2 8 demoC5After rfl
  · exact (get_expansion_variable_canonical demoC5 3 [1, -2] [-2, 1]
      (by decide) (by decide)).1

/-!  Constructor initialization (C9). -/

/-- Effect of one `init_model` call: existential ids unchanged, existing map
entries kept, the three decision-list maps stay domain-synchronized, and the
processed existential ends up with a value-variable entry. -/
theorem init_model_ok {s s' : SolverState} {x : Int}
    (h : init_model s x = .ok s')
    (hP : ∀ k, (alistLookup s.value_vars k).isSome = true →
      (alistLookup s.no_rule_fired_vars k).isSome = true ∧
      (alistLookup s.rule_fire_vars k).isSome = true) :
    s'.existential_var_ids = s.existential_var_ids ∧
    (∀ k, (alistLookup s'.value_vars k).isSome = true →
      (alistLookup s'.no_rule_fired_vars k).isSome = true ∧
      (alistLookup s'.rule_fire_vars k).isSome = true) ∧
    (∀ k, (alistLookup s.value_vars k).isSome = true →
      (alistLookup s'.value_vars k).isSome = true) ∧
    (alistLookup s'.value_vars x).isSome = true := by
  unfold init_model at h
  split at h
  · cases h
  · split at h
    · rename_i hinit
      injection h with h1
      subst h1
      exact ⟨rfl, hP, fun k hk => hk, hinit⟩
    · rename_i hnew
      injection h with h1
      subst h1
      refine ⟨rfl, ?_, ?_, ?_⟩
      · intro k hk
        show (alistLookup (alistInsert s.no_rule_fired_vars x _) k).isSome =
            true ∧
          (alistLookup (alistInsert s.rule_fire_vars x _) k).isSome = true
        rw [alistLookup_insert, alistLookup_insert]
        by_cases hxk : x = k
        · simp [hxk]
        · rw [if_neg hxk, if_neg hxk]
          apply hP
          revert hk
          show (alistLookup (alistInsert s.value_vars x _) k).isSome = true → _
          rw [alistLookup_insert, if_neg hxk]
          exact id
      · intro k hk
        show (alistLookup (alistInsert s.value_vars x _) k).isSome = true
        rw [alistLookup_insert]
        by_cases hxk : x = k
        · rw [if_pos hxk]
          rfl
        · rw [if_neg hxk]
          exact hk
      · show (alistLookup (alistInsert s.value_vars x _) x).isSome = true
        rw [alistLookup_insert_self]
        rfl

/-- Folding `init_model` over a list of existentials keeps the maps
synchronized and leaves every processed existential with entries. -/
theorem foldl_init_model (es : List Int) :
    ∀ (s s' : SolverState),
      (∀ k, (alistLookup s.value_vars k).isSome = true →
        (alistLookup s.no_rule_fired_vars k).isSome = true ∧
        (alistLookup s.rule_fire_vars k).isSome = true) →
      es.foldlM init_model s = .ok s' →
      s'.existential_var_ids = s.existential_var_ids ∧
      (∀ k, (alistLookup s'.value_vars k).isSome = true →
        (alistLookup s'.no_rule_fired_vars k).isSome = true ∧
        (alistLookup s'.rule_fire_vars k).isSome = true) ∧
      (∀ k, (alistLookup s.value_vars k).isSome = true →
        (alistLookup s'.value_vars k).isSome = true) ∧
      (∀ e ∈ es, (alistLookup s'.value_vars e).isSome = true) := by
  induction es with
  | nil =>
    intro s s' hP h
    simp only [List.foldlM_nil] at h
    injection h with h1
    subst h1
    exact ⟨rfl, hP, fun k hk => hk, fun e he => absurd he (by simp)⟩
  | cons e es ih =>
    intro s s' hP h
    rw [List.foldlM_cons] at h
    cases hi : init_model s e with
    | error m =>
      rw [hi] at h
      cases h
    | ok s1 =>
      rw [hi] at h
      have h1 : es.foldlM init_model s1 = .ok s' := h
      obtain ⟨hex1, hP1, hmono1, hval1⟩ := init_model_ok hi hP
      obtain ⟨hex2, hP2, hmono2, hmem2⟩ := ih s1 s' hP1 h1
      refine ⟨hex2.trans hex1, hP2, fun k hk => hmono2 k (hmono1 k hk), ?_⟩
      intro e' he'
      rcases List.mem_cons.mp he' with rfl | he'
      · exact hmono2 e' hval1
      · exact hmem2 e' he'

theorem set_default_value_isOk {st : SolverState} {e : Int}
    (hv : (alistLookup st.value_vars e).isSome = true) (v : Bool) :
    (set_default_value st e v).toOption.isSome = true := by
  obtain ⟨v0, hv0⟩ := Option.isSome_iff_exists.mp hv
  unfold set_default_value
  rw [hv0]
  rfl

theorem add_rule_isOk {st : SolverState} {e : Int}
    (hv : (alistLookup st.value_vars e).isSome = true)
    (hn : (alistLookup st.no_rule_fired_vars e).isSome = true)
    (hf : (alistLookup st.rule_fire_vars e).isSome = true)
    (p : List Int) (c : Bool) (vv : Option Int) :
    (add_rule st e p c vv).toOption.isSome = true := by
  obtain ⟨v0, hv0⟩ := Option.isSome_iff_exists.mp hv
  obtain ⟨n0, hn0⟩ := Option.isSome_iff_exists.mp hn
  obtain ⟨f0, hf0⟩ := Option.isSome_iff_exists.mp hf
  unfold add_rule
  rw [hv0, hn0, hf0]
  rfl

/-- The claim of `C9`: after construction, every existential id has entries in
the value, no-rule-fired and fire-variable maps (the constructor runs
`init_model` on each existential), so for every existential id the
uninitialized-existential failure branches of `set_default_value` and
`add_rule` are unreachable: both calls succeed. -/
theorem mkSolver_initializes_all (n2i : List (String × Int))
    (i2n : List (Int × String)) (deps : List (String × List String))
    (mat : List (List Int)) (uvs : List String) (og : Int) (ctr : Option Int)
    (st : SolverState) (h : mkSolver n2i i2n deps mat uvs og ctr = .ok st) :
    ∀ e ∈ st.existential_var_ids,
      (alistLookup st.value_vars e).isSome = true ∧
      (alistLookup st.no_rule_fired_vars e).isSome = true ∧
      (alistLookup st.rule_fire_vars e).isSome = true ∧
      (∀ v : Bool, (set_default_value st e v).toOption.isSome = true) ∧
      (∀ (p : List Int) (c : Bool) (vv : Option Int),
        (add_rule st e p c vv).toOption.isSome = true) := by
  unfold mkSolver at h
  dsimp only at h
  cases h1 : uvs.mapM (lookupE n2i) with
  | error m =>
    rw [h1] at h
    cases h
  | ok uids =>
    rw [h1] at h
    cases h2 : ((deps.map Prod.fst).eraseDups).mapM (lookupE n2i) with
    | error m =>
      rw [h2] at h
      cases h
    | ok eids =>
      rw [h2] at h
      cases h3 : depPairsOf n2i deps with
      | error m =>
        rw [h3] at h
        cases h
      | ok depPairs =>
        rw [h3] at h
        have hfold : eids.foldlM init_model
            { name_to_id := n2i
              id_to_name := i2n
              dependencies := deps
              matrix := mat
              universal_vars := uvs
              output_gate_id := og
              counter := initialCounter n2i mat ctr
              existential_vars := (deps.map Prod.fst).eraseDups
              universal_var_ids := uids
              existential_var_ids := eids
              dependencies_by_id :=
                depPairs.foldl (fun m p => alistInsert m p.1 p.2) []
              dependencies_by_id_list :=
                depPairs.foldl (fun m p => alistInsert m p.1 p.2) []
              value_vars := []
              no_rule_fired_vars := []
              rule_fire_vars := []
              all_rule_fire_vars := []
              all_no_rule_fired_vars := []
              all_value_vars := []
              permanent_assumptions := []
              expansion_vars := []
              expansion_vars_set := []
              expansion_variable_assignment := []
              cx_clauses := mat
              exp_clauses := []
              last_counterexample_existentials := none
              last_counterexample_universals := none } = .ok st := h
        obtain ⟨hex, hP, hmono, hmem⟩ := foldl_init_model eids _ st
          (fun k hk => by cases hk) hfold
        intro e he
        rw [hex] at he
        have hv : (alistLookup st.value_vars e).isSome = true := hmem e he
        obtain ⟨hn, hf⟩ := hP e hv
        exact ⟨hv, hn, hf, set_default_value_isOk hv,
          fun p c vv => add_rule_isOk hv hn hf p c vv⟩

/-- Witness for `mkSolver_initializes_all`: the demo constructor run leaves
existential 2 fully initialized and both operations succeed on it. -/
theorem mkSolver_initializes_all_witness :
    (alistLookup demoC7.value_vars 2).isSome = true ∧
    (alistLookup demoC7.no_rule_fired_vars 2).isSome = true ∧
    (alistLookup demoC7.rule_fire_vars 2).isSome = true ∧
    (set_default_value demoC7 2 true).toOption.isSome = true ∧
    (add_rule demoC7 2 [] true none).toOption.isSome = true := by
  obtain ⟨hv, hn, hf, hsd, har⟩ :=
    mkSolver_initializes_all demoN2I demoI2N demoDeps [] ["u"] 3 none demoC7
      rfl 2 (by decide)
  exact ⟨hv, hn, hf, hsd true, har [] true none⟩

/-!  Equivalence detector (C6, C10). -/

theorem foldl_append_flatMap {α : Type} (g : α → List (List Int)) :
    ∀ (l : List α) (init : List (List Int)),
      l.foldl (fun cs q => cs ++ g q) init = init ++ l.flatMap g := by
  intro l
  induction l with
  | nil => intro init; simp
  | cons q l ih =>
    intro init
    rw [List.foldl_cons, ih, List.flatMap_cons, List.append_assoc]

theorem buckets_fold_sound (st : SolverState) (es : List Int) :
    ∀ (acc : List (Nat × List Int)),
      (∀ kg ∈ acc, ∀ v ∈ kg.2, depCountOf st v = kg.1) →
      ∀ kg ∈ es.foldl
        (fun buckets exist_id =>
          match alistLookup buckets
              (((alistLookup st.dependencies_by_id_list
                exist_id).getD []).length) with
          | some group =>
            alistInsert buckets
              (((alistLookup st.dependencies_by_id_list
                exist_id).getD []).length) (group ++ [exist_id])
          | none => buckets ++
              [((((alistLookup st.dependencies_by_id_list
                exist_id).getD []).length), [exist_id])])
        acc,
      ∀ v ∈ kg.2, depCountOf st v = kg.1 := by
  induction es with
  | nil =>
    intro acc hacc
    exact hacc
  | cons e es ih =>
    intro acc hacc
    rw [List.foldl_cons]
    apply ih
    cases hk : alistLookup acc
        (((alistLookup st.dependencies_by_id_list e).getD []).length) with
    | some group =>
      intro kg hkg v hv
      rcases mem_alistInsert hkg with heq | hmem
      · subst heq
        rcases (List.mem_append.mp hv) with hvg | hve
        · exact hacc _ (alistLookup_mem hk) v hvg
        · rw [List.mem_singleton.mp hve]
          rfl
      · exact hacc _ hmem v hv
    | none =>
      intro kg hkg v hv
      rcases List.mem_append.mp hkg with hmem | hnew
      · exact hacc _ hmem v hv
      · rw [List.mem_singleton.mp hnew] at hv ⊢
        rw [List.mem_singleton.mp hv]
        rfl

theorem buildBuckets_sound (st : SolverState) :
    ∀ kg ∈ buildBuckets st, ∀ v ∈ kg.2, depCountOf st v = kg.1 := by
  unfold buildBuckets
  exact buckets_fold_sound st st.existential_var_ids []
    (fun kg hkg => absurd hkg (by simp))

theorem mem_pairsOf : ∀ {g : List Int} {p : Int × Int},
    p ∈ pairsOf g → p.1 ∈ g ∧ p.2 ∈ g := by
  intro g
  induction g with
  | nil =>
    intro p hp
    cases hp
  | cons x xs ih =>
    intro p hp
    unfold pairsOf at hp
    rcases List.mem_append.mp hp with hmap | hrec
    · obtain ⟨y, hy, hpy⟩ := List.mem_map.mp hmap
      rw [← hpy]
      exact ⟨List.mem_cons_self _ _, List.mem_cons_of_mem _ hy⟩
    · obtain ⟨h1, h2⟩ := ih hrec
      exact ⟨List.mem_cons_of_mem _ h1, List.mem_cons_of_mem _ h2⟩

/-- The claim of `C6`: the equivalence detector considers only ordered pairs
from one dependency-count bucket (so both members have dependency lists of
equal length), and each candidate pair not already in one union-find class
gets a fresh activation literal (the next id from the shared counter), the
guarded positionwise dependency-equivalence and difference clauses, a solve
under the activation literal and the output gate, and a union exactly when
that query is UNSAT; pairs already in one class are skipped unchanged. -/
theorem detect_equivalent_existentials_pairs (st : SolverState)
    (o : DetOracle) :
    (∀ p ∈ bucketPairs st,
      ((alistLookup st.dependencies_by_id_list p.1).getD []).length =
        ((alistLookup st.dependencies_by_id_list p.2).getD []).length) ∧
    (∀ (ctr : Int) (uf : UnionFind) (cls : List (List Int)) (v1 v2 : Int),
      ((ufSameSet uf v1 v2).1 = true →
        checkPair st o (ctr, uf, cls) v1 v2 =
          (ctr, (ufSameSet uf v1 v2).2, cls)) ∧
      ((ufSameSet uf v1 v2).1 = false →
        checkPair st o (ctr, uf, cls) v1 v2 =
          (ctr + 1,
           if o.solve (cls ++ guardedClauses (ctr + 1)
                ((alistLookup st.dependencies_by_id_list v1).getD [])
                ((alistLookup st.dependencies_by_id_list v2).getD []) v1 v2)
              [ctr + 1, st.output_gate_id]
           then (ufSameSet uf v1 v2).2
           else ufUnion (ufSameSet uf v1 v2).2 v1 v2,
           cls ++ guardedClauses (ctr + 1)
             ((alistLookup st.dependencies_by_id_list v1).getD [])
             ((alistLookup st.dependencies_by_id_list v2).getD []) v1 v2))) := by
  constructor
  · intro p hp
    unfold bucketPairs at hp
    rw [List.mem_flatMap] at hp
    obtain ⟨bucket, hb, hpb⟩ := hp
    have hb' : bucket ∈ buildBuckets st :=
      (List.Perm.mem_iff (List.perm_insertionSort _ _)).mp hb
    obtain ⟨h1, h2⟩ := mem_pairsOf hpb
    have e1 := buildBuckets_sound st bucket hb' p.1 h1
    have e2 := buildBuckets_sound st bucket hb' p.2 h2
    exact e1.trans e2.symm
  · intro ctr uf cls v1 v2
    constructor
    · intro hsame
      unfold checkPair
      dsimp only
      rw [hsame]
      rfl
    · intro hsame
      unfold checkPair
      dsimp only
      rw [hsame]
      rw [foldl_append_flatMap]
      unfold guardedClauses
      simp only [List.append_assoc, List.nil_append]
      rw [if_neg Bool.false_ne_true]
      split
      · rfl
      · rfl

/-- Witness for `detect_equivalent_existentials_pairs`: the pair `(e1, e2)` of
the equal-dependency demo is a candidate pair with equal dependency-list
lengths, and processing it from the initial union-find allocates activation
literal 11 (the counter after construction stands at 10), adds the guarded
clauses and, the query being SAT, performs no union. -/
theorem detect_equivalent_existentials_pairs_witness :
    ((alistLookup demoEq.dependencies_by_id_list 2).getD []).length =
      ((alistLookup demoEq.dependencies_by_id_list 3).getD []).length ∧
    checkPair demoEq oDetSat (demoEq.counter, ufInit [2, 3], demoEq.matrix)
      2 3 =
      (demoEq.counter + 1, (ufSameSet (ufInit [2, 3]) 2 3).2,
       demoEq.matrix ++
         guardedClauses (demoEq.counter + 1) [1] [1] 2 3) := by
  constructor
  · exact (detect_equivalent_existentials_pairs demoEq oDetSat).1 (2, 3)
      (by decide)
  · exact ((detect_equivalent_existentials_pairs demoEq oDetSat).2
      demoEq.counter (ufInit [2, 3]) demoEq.matrix 2 3).2 rfl

/-!  Frame property of the equivalence detector (C10). -/

theorem checkPair_counter_mono (st : SolverState) (o : DetOracle)
    (acc : Int × UnionFind × List (List Int)) (v1 v2 : Int) :
    acc.1 ≤ (checkPair st o acc v1 v2).1 := by
  unfold checkPair
  dsimp only
  split
  · exact le_refl _
  · split
    · show acc.1 ≤ acc.1 + 1
      omega
    · show acc.1 ≤ acc.1 + 1
      omega

theorem foldl_checkPair_counter_mono (st : SolverState) (o : DetOracle) :
    ∀ (ps : List (Int × Int)) (acc : Int × UnionFind × List (List Int)),
      acc.1 ≤ (ps.foldl (fun a p => checkPair st o a p.1 p.2) acc).1 := by
  intro ps
  induction ps with
  | nil =>
    intro acc
    exact le_refl _
  | cons p ps ih =>
    intro acc
    rw [List.foldl_cons]
    exact le_trans (checkPair_counter_mono st o acc p.1 p.2)
      (ih (checkPair st o acc p.1 p.2))

/-- The claim of `C10`: `detect_equivalent_existentials` leaves all solving
state unchanged — both solvers' clause databases, the three decision-list
maps, the permanent assumptions, the expansion registry, its id set and the
stored expansion assignment are those of the input state; only the shared
fresh-id counter advances (the clauses built for the candidate pairs go to
the dedicated detection solver, which is local to the call). -/
theorem detect_equivalent_existentials_frame (st : SolverState)
    (o : DetOracle) :
    (detect_equivalent_existentials st o).2.cx_clauses = st.cx_clauses ∧
    (detect_equivalent_existentials st o).2.exp_clauses = st.exp_clauses ∧
    (detect_equivalent_existentials st o).2.value_vars = st.value_vars ∧
    (detect_equivalent_existentials st o).2.no_rule_fired_vars =
      st.no_rule_fired_vars ∧
    (detect_equivalent_existentials st o).2.rule_fire_vars =
      st.rule_fire_vars ∧
    (detect_equivalent_existentials st o).2.permanent_assumptions =
      st.permanent_assumptions ∧
    (detect_equivalent_existentials st o).2.expansion_vars =
      st.expansion_vars ∧
    (detect_equivalent_existentials st o).2.expansion_vars_set =
      st.expansion_vars_set ∧
    (detect_equivalent_existentials st o).2.expansion_variable_assignment =
      st.expansion_variable_assignment ∧
    (detect_equivalent_existentials st o).2.matrix = st.matrix ∧
    (detect_equivalent_existentials st o).2.dependencies_by_id =
      st.dependencies_by_id ∧
    st.counter ≤ (detect_equivalent_existentials st o).2.counter := by
  refine ⟨rfl, rfl, rfl, rfl, rfl, rfl, rfl, rfl, rfl, rfl, rfl, ?_⟩
  show st.counter ≤ ((bucketPairs st).foldl
    (fun acc p => checkPair st o acc p.1 p.2)
    (st.counter, ufInit st.existential_var_ids, st.matrix)).1
  exact foldl_checkPair_counter_mono st o (bucketPairs st)
    (st.counter, ufInit st.existential_var_ids, st.matrix)
